import Mathlib

/-!
Verification development for the bulk-payroll repository.

This file gives a shallow embedding, in Lean 4, of the core logic of the
repository: the row validation pipeline (`src/lib/validation.ts`, reproduced at
the end of `src/lib/errors.ts`, built on zod 3.22.4), the batch validation and
duplicate detection engine (`src/lib/csv-parser.ts`), the fake payments adapter
(`src/lib/payments-adapter.ts`), the background worker that processes a job's
rows in batches with per-row retry (`worker/index.ts`, appended to
`src/__tests__/e2e/bulk-payroll.spec.ts`), and the cancel endpoint
(`src/app/api/bulk-payroll/jobs/[id]/route.ts`).

Machine integers are modelled as `Int` with explicit 32-bit wrapping where the
JavaScript source coerces (`<<`, `&`), JavaScript numbers arising from decimal
input as `ℚ`, and the asynchronous pieces as explicit traces / transition
relations.
-/

namespace Payroll

/-! ## Character and string utilities -/

/-- ASCII decimal digit, as matched by `\d` in the source's regexes. -/
def isDigit (c : Char) : Bool := '0' ≤ c && c ≤ '9'

/-- ASCII letter (the source's regexes run case-insensitively or list both
cases explicitly). -/
def isAlpha (c : Char) : Bool := ('A' ≤ c && c ≤ 'Z') || ('a' ≤ c && c ≤ 'z')

/-- ASCII letter or digit. -/
def isAlnum (c : Char) : Bool := isAlpha c || isDigit c

/-- JavaScript whitespace as trimmed by `String.prototype.trim` and by
`Number()` coercion, restricted to the characters that can occur in this
pipeline's CSV input. -/
def isWs (c : Char) : Bool :=
  c = ' ' || c = '\t' || c = '\n' || c = '\r'

/-- Trim whitespace from both ends of a character list (model of
`String.prototype.trim`). -/
def trimWs (l : List Char) : List Char :=
  ((l.dropWhile isWs).reverse.dropWhile isWs).reverse

/-- Numeric value of a digit list, most significant first. -/
def digitsToNat (l : List Char) : Nat :=
  l.foldl (fun a c => a * 10 + (c.toNat - 48)) 0

/-- Split a character list at every occurrence of `sep` (model of
`String.prototype.split` with a single-character separator). -/
def splitOnChar (sep : Char) : List Char → List (List Char)
  | [] => [[]]
  | c :: rest =>
    let r := splitOnChar sep rest
    if c = sep then [] :: r
    else
      match r with
      | [] => [[c]]
      | h :: t => (c :: h) :: t

/-! ## JavaScript `Number()` on decimal strings

The CSV pipeline feeds plain decimal strings (optionally signed, optional
fractional part) into `Number(val)`.  `jsNumber` models that coercion on this
decimal-literal subset: surrounding whitespace is trimmed, the empty string
coerces to `0`, and anything that is not a decimal literal yields `none`
(JavaScript `NaN`).  Exponent, hexadecimal and `Infinity` forms do not occur in
this pipeline and are out of the modelled subset. -/

/-- Parse an unsigned decimal literal `digits`, `digits.digits`, `digits.` or
`.digits` into a rational. -/
def parseDecimalCore (l : List Char) : Option ℚ :=
  let ip := l.takeWhile isDigit
  let rest := l.dropWhile isDigit
  match rest with
  | [] => if ip.isEmpty then none else some (digitsToNat ip : ℚ)
  | '.' :: fp =>
    if fp.all isDigit && (!ip.isEmpty || !fp.isEmpty) then
      some (mkRat (digitsToNat ip * 10 ^ fp.length + digitsToNat fp) (10 ^ fp.length))
    else none
  | _ => none

/-- Model of JavaScript `Number(s)` on the decimal subset; `none` is `NaN`. -/
def jsNumber (s : String) : Option ℚ :=
  match trimWs s.data with
  | [] => some 0
  | '-' :: rest => (parseDecimalCore rest).map (fun q => -q)
  | '+' :: rest => parseDecimalCore rest
  | l => parseDecimalCore l

/-! ## The amount checks of `PaymentRowSchema`

`amount` is validated by `z.number().positive(...).max(1000000, ...)` followed
by `.refine((val) => /^\d+(\.\d{1,2})?$/.test(val.toString()), ...)`.

For a double `val`, `val.toString()` renders in plain decimal positional form
exactly when `val = 0` or `1e-6 ≤ |val| < 1e21` (otherwise exponent form, which
the regex rejects), and the regex then demands: no sign (so `val ≥ 0`) and at
most two digits after the decimal point.  All values reaching this refinement
come from decimal literals, for which string round-tripping is exact, so the
regex test is equivalent to the value-level test below: nonnegative, `100·q`
integral (note a positive `q` with `100·q` integral is at least `1/100`, hence
never in the exponent range below `1e-6`), and below `1e21`. -/

/-- Model of `/^\d+(\.\d{1,2})?$/.test(val.toString())`.  "At most two digits
after the decimal point" is the condition that the reduced denominator
divides 100 (equivalently, `100·q` is an integer — see
`Payroll.den_dvd_100_iff`). -/
def jsDecimal2Check (q : ℚ) : Bool :=
  (0 ≤ q) && (100 % q.den = 0) && (q < ((10 ^ 21 : Nat) : ℚ))

/-- Model of JavaScript number-to-string interpolation for the amounts that
reach key construction: validated amounts, i.e. values with at most two
decimal digits (`(100·q).den = 1`).  Renders the shortest decimal form, as
`Number.prototype.toString` does for such values. -/
def amountToString (q : ℚ) : String :=
  let n := q.num * ((100 / q.den : Nat) : Int)
  let sign := if n < 0 then "-" else ""
  let a := n.natAbs
  let ip := a / 100
  let fr := a % 100
  sign ++
    (if fr = 0 then toString ip
     else if fr % 10 = 0 then toString ip ++ "." ++ toString (fr / 10)
     else toString ip ++ "." ++ (if fr < 10 then "0" ++ toString fr else toString fr))

/-! ## The email, employee id and currency checks -/

/-- Characters allowed in the non-final part of the local part of an email by
zod 3.22.4's email regularity test
`/^(?!\.)(?!.*\.\.)([A-Z0-9_'+\-\.]*)[A-Z0-9_+\-]@([A-Z0-9][A-Z0-9\-]*\.)+[A-Z]{2,}$/i`. -/
def emailLocalChar (c : Char) : Bool :=
  isAlnum c || c = '_' || c = Char.ofNat 39 || c = '+' || c = '-' || c = '.'

/-- Characters allowed as the final character of the local part. -/
def emailLocalEnd (c : Char) : Bool :=
  isAlnum c || c = '_' || c = '+' || c = '-'

/-- One domain label `[A-Z0-9][A-Z0-9-]*` (case-insensitive). -/
def emailLabelOk : List Char → Bool
  | [] => false
  | c :: rest => isAlnum c && rest.all (fun d => isAlnum d || d = '-')

/-- The final domain segment `[A-Z]{2,}` (case-insensitive). -/
def emailTldOk (l : List Char) : Bool :=
  decide (2 ≤ l.length) && l.all isAlpha

/-- Whether a character list contains two consecutive dots (the `(?!.*\.\.)`
lookahead, which scans the whole candidate string). -/
def hasDoubleDot : List Char → Bool
  | [] => false
  | [_] => false
  | a :: b :: rest => (a = '.' && b = '.') || hasDoubleDot (b :: rest)

/-- The domain side `([A-Z0-9][A-Z0-9\-]*\.)+[A-Z]{2,}`. -/
def emailDomainOk (d : List Char) : Bool :=
  match (splitOnChar '.' d).reverse with
  | tld :: l :: labels => emailTldOk tld && (l :: labels).all emailLabelOk
  | _ => false

/-- Model of zod 3.22.4's `z.string().email()` test. -/
def isEmail (s : String) : Bool :=
  let l := s.data
  match splitOnChar '@' l with
  | [loc, dom] =>
    (match l with
     | '.' :: _ => false
     | _ => true) &&
    !hasDoubleDot l &&
    (match loc.reverse with
     | [] => false
     | last :: init => emailLocalEnd last && init.all emailLocalChar) &&
    emailDomainOk dom
  | _ => false

/-- Model of the `employee_id` pattern `/^[A-Za-z0-9_-]{3,64}$|^$/`. -/
def employeeIdOk (s : String) : Bool :=
  s.data.isEmpty ||
    (decide (3 ≤ s.data.length) && decide (s.data.length ≤ 64) &&
      s.data.all (fun c => isAlnum c || c = '_' || c = '-'))

/-- The `ISO4217_CURRENCIES` array from `validation.ts` (verbatim, including
the repeated `HKD` entry). -/
def ISO4217_CURRENCIES : List String :=
  ["USD", "EUR", "GBP", "JPY", "CAD", "AUD", "CHF", "CNY",
   "SEK", "NZD", "MXN", "SGD", "HKD", "NOK", "KRW", "TRY",
   "RUB", "INR", "BRL", "ZAR", "AED", "SAR", "QAR", "KWD",
   "BHD", "OMR", "JOD", "ILS", "BGN", "HRK", "CZK", "DKK",
   "HUF", "PLN", "RON", "HKD", "IDR", "MYR", "PHP", "THB",
   "VND", "PKR", "BDT", "LKR", "MMK", "KHR", "LAK"]

/-- Model of `val.trim().toUpperCase()` (ASCII input). -/
def trimUpper (s : String) : String :=
  String.mk ((trimWs s.data).map Char.toUpper)

/-! ## Calendar arithmetic for the `pay_date` window

`pay_date` must match `/^\d{4}-\d{2}-\d{2}$/` and `new Date(val)` (UTC
midnight of that calendar day, or Invalid Date for an impossible date) must lie
between `today - 30 days` and `today + 365 days`, both taken at *local*
midnight.  We model instants in minutes since the Unix epoch; the evaluation
context supplies the local calendar day `today` (as a day number) and the fixed
local UTC offset in minutes east.  Local midnight of day `X` is then the
instant `X·1440 − offset`. -/

/-- Leap year test of the Gregorian calendar. -/
def isLeapYear (y : Int) : Bool :=
  (y % 4 = 0 && y % 100 ≠ 0) || y % 400 = 0

/-- Days in a month (`m ∈ [1,12]`). -/
def daysInMonth (y m : Int) : Int :=
  if m = 2 then (if isLeapYear y then 29 else 28)
  else if m = 4 || m = 6 || m = 9 || m = 11 then 30
  else 31

/-- Whether `y-m-d` is an actual calendar date; mirrors the validation the
JavaScript ISO date parser applies before producing a valid `Date`. -/
def validCalendarDate (y m d : Int) : Bool :=
  1 ≤ m && m ≤ 12 && 1 ≤ d && d ≤ daysInMonth y m

/-- Day number (days since 1970-01-01) of the civil date `y-m-d`
(Gregorian, proleptic; days-from-civil algorithm). -/
def daysFromCivil (y m d : Int) : Int :=
  let y' := if m ≤ 2 then y - 1 else y
  let era := Int.fdiv y' 400
  let yoe := y' - era * 400
  let mm := if 2 < m then m - 3 else m + 9
  let doy := Int.fdiv (153 * mm + 2) 5 + d - 1
  let doe := yoe * 365 + Int.fdiv yoe 4 - Int.fdiv yoe 100 + doy
  era * 146097 + doe - 719468

/-- Extract `(y, m, d)` from a string matching `/^\d{4}-\d{2}-\d{2}$/`;
`none` when the shape does not match. -/
def parseIsoShape (s : String) : Option (Int × Int × Int) :=
  match s.data with
  | [a, b, c, d, '-', e, f, '-', g, h] =>
    if [a, b, c, d, e, f, g, h].all isDigit then
      some ((digitsToNat [a, b, c, d] : Int),
            (digitsToNat [e, f] : Int),
            (digitsToNat [g, h] : Int))
    else none
  | _ => none

/-- Evaluation context of a validation run: the local calendar day at
validation time (as a day number) and the fixed local UTC offset in minutes
east of UTC. -/
structure DateCtx where
  today : Int
  tzOffsetMin : Int
deriving DecidableEq, Repr

/-- Model of the window refinement: `new Date(val) ≥ minDate && new Date(val)
≤ maxDate` with `minDate`/`maxDate` the local midnights of `today − 30` and
`today + 365`.  `new Date(val)` for an ISO `YYYY-MM-DD` string is the UTC
midnight of that day, and Invalid Date (from an impossible or non-matching
string) makes both comparisons false. -/
def payDateWindowOk (ctx : DateCtx) (s : String) : Bool :=
  match parseIsoShape s with
  | none => false
  | some (y, m, d) =>
    if validCalendarDate y m d then
      let dayMin := daysFromCivil y m d * 1440
      ((ctx.today - 30) * 1440 - ctx.tzOffsetMin ≤ dayMin) &&
        (dayMin ≤ (ctx.today + 365) * 1440 - ctx.tzOffsetMin)
    else false

/-- The full `pay_date` acceptance test of `PaymentRowSchema`: the literal
`YYYY-MM-DD` regex refinement and the date-window refinement. -/
def payDateCheck (ctx : DateCtx) (s : String) : Bool :=
  (parseIsoShape s).isSome && payDateWindowOk ctx s

/-! ## The row validator: `RawPaymentRowSchema = z.object({...}).pipe(PaymentRowSchema)`

zod 3.22.4 semantics, as relevant here: within an object, each field's checks
are evaluated and all issues collected; a field whose *type* is wrong (e.g. a
required string that is `undefined`) aborts the object, while a failing check
on a well-typed field only marks it dirty.  `.pipe` stops after the first
schema whenever it produced any issue (aborted or dirty), so a coercion
failure in the raw stage suppresses the whole `PaymentRowSchema` stage.
Inside `PaymentRowSchema`, dirty fields do not prevent the schema-level
`.refine` (the cross-field check) from running; it is skipped only when the
object aborts, which cannot happen for input coming through the pipe (the raw
stage always hands over correctly-typed fields).  `safeParse` reports success
exactly when no issue at all was produced. -/

/-- One zod issue: the field it is attached to (`none` = attached at row
level) and its message. -/
structure VIssue where
  path : Option String
  message : String
deriving DecidableEq, Repr

/-- The raw candidate handed to `RawPaymentRowSchema.safeParse`: canonical
fields mapped to string values, each possibly absent. -/
structure RawCandidate where
  employee_id : Option String
  employee_email : Option String
  amount : Option String
  currency : Option String
  pay_date : Option String
  description : Option String
  external_reference : Option String
deriving DecidableEq, Repr

/-- Output of the raw coercion stage (the object part of
`RawPaymentRowSchema`): absent optional fields defaulted to `""`, `amount`
coerced to a number, `currency` trimmed and upper-cased, `pay_date` trimmed. -/
structure RawParsed where
  employee_id : String
  employee_email : String
  amount : ℚ
  currency : String
  pay_date : String
  description : String
  external_reference : String
deriving DecidableEq, Repr

/-- The validated row produced by `PaymentRowSchema` (the `PaymentRow` type):
same fields, `currency` upper-cased once more by the schema's transform. -/
structure PaymentRow where
  employee_id : String
  employee_email : String
  amount : ℚ
  currency : String
  pay_date : String
  description : String
  external_reference : String
deriving DecidableEq, Repr

/-- The issues of one raw-stage field result. -/
def fieldIssues : Except VIssue α → List VIssue
  | .error e => [e]
  | .ok _ => []

/-- ASCII upper-casing (model of `String.prototype.toUpperCase`). -/
def upperStr (s : String) : String :=
  String.mk (s.data.map Char.toUpper)

/-- The raw-stage `amount` field:
`z.string().or(z.number()).refine(val => !isNaN(Number(val))).transform(Number)`
— the field must be present and coerce to a number. -/
def rawAmountField (a : Option String) : Except VIssue ℚ :=
  match a with
  | none => .error ⟨some "amount", "Required"⟩
  | some s =>
    match jsNumber s with
    | none => .error ⟨some "amount", "amount must be a valid number"⟩
    | some q => .ok q

/-- The raw coercion stage (the object part of `RawPaymentRowSchema`):
`amount`, `currency` and `pay_date` must be present; the other four fields
default to `""` when absent.  On any issue the pipe stops here. -/
def rawStage (cand : RawCandidate) : Except (List VIssue) RawParsed :=
  let amountRes : Except VIssue ℚ := rawAmountField cand.amount
  let currencyRes : Except VIssue String :=
    match cand.currency with
    | none => .error ⟨some "currency", "Required"⟩
    | some s => .ok (trimUpper s)
  let payDateRes : Except VIssue String :=
    match cand.pay_date with
    | none => .error ⟨some "pay_date", "Required"⟩
    | some s => .ok (String.mk (trimWs s.data))
  match amountRes, currencyRes, payDateRes with
  | .ok q, .ok c, .ok p =>
    .ok ⟨cand.employee_id.getD "", cand.employee_email.getD "", q, c, p,
         cand.description.getD "", cand.external_reference.getD ""⟩
  | a, c, p => .error (fieldIssues a ++ fieldIssues c ++ fieldIssues p)

/-- The `amount` checks of `PaymentRowSchema`:
`z.number().positive(...).max(1000000, ...).refine(two-decimals regex)`.
zod collects all three issues (a failing check marks the value dirty without
aborting, so the later checks still run). -/
def amountIssuesOf (q : ℚ) : List VIssue :=
  (if 0 < q then [] else
    [⟨some "amount", "Amount must be greater than 0"⟩])
  ++ (if q ≤ 1000000 then [] else
    [⟨some "amount", "Amount cannot exceed 1,000,000"⟩])
  ++ (if jsDecimal2Check q then [] else
    [⟨some "amount", "Amount must have at most 2 decimal places"⟩])

/-- All issues of the `PaymentRowSchema` stage, in zod's order: field checks
in shape order, then the schema-level cross-field refinement (which runs
because, through the pipe, every field is well-typed so the object never
aborts). -/
def paymentStageIssues (ctx : DateCtx) (r : RawParsed) : List VIssue :=
  (if employeeIdOk r.employee_id then [] else
    [⟨some "employee_id", "Invalid"⟩])
  ++ (if isEmail r.employee_email then [] else
    [⟨some "employee_email", "Invalid email"⟩])
  ++ amountIssuesOf r.amount
  ++ (if r.currency.data.length = 3 then [] else
    [⟨some "currency", "Currency code must be 3 characters"⟩])
  ++ (if ISO4217_CURRENCIES.contains (upperStr r.currency) then [] else
    [⟨some "currency", "Invalid ISO 4217 currency code"⟩])
  ++ (if (parseIsoShape r.pay_date).isSome then [] else
    [⟨some "pay_date", "pay_date must be in YYYY-MM-DD format"⟩])
  ++ (if payDateWindowOk ctx r.pay_date then [] else
    [⟨some "pay_date", "pay_date must be within the allowed window"⟩])
  ++ (if r.description.data.length ≤ 255 then [] else
    [⟨some "description", "String must contain at most 255 character(s)"⟩])
  ++ (if r.employee_id = "" && r.employee_email = "" then
    [⟨none, "At least one of employee_id or employee_email must be provided"⟩]
    else [])

/-- The `PaymentRowSchema` stage: succeeds (producing the validated row, with
`currency` upper-cased by the transform) exactly when no issue arose. -/
def paymentStage (ctx : DateCtx) (r : RawParsed) : Except (List VIssue) PaymentRow :=
  match paymentStageIssues ctx r with
  | [] => .ok ⟨r.employee_id, r.employee_email, r.amount, upperStr r.currency,
               r.pay_date, r.description, r.external_reference⟩
  | e :: es => .error (e :: es)

/-- Model of `RawPaymentRowSchema.safeParse` on a candidate row. -/
def rawPaymentRowParse (ctx : DateCtx) (cand : RawCandidate) :
    Except (List VIssue) PaymentRow :=
  match rawStage cand with
  | .error es => .error es
  | .ok r => paymentStage ctx r

/-! ## Batch validation with duplicate detection (`csv-parser.ts`) -/

/-- The duplicate key of a validated row:
`` `${employee_id || employee_email}:${amount}:${pay_date}` `` — the employee
id when non-empty (JavaScript truthiness), otherwise the email, joined with
the interpolated amount and the pay date. -/
def paymentKey (p : PaymentRow) : String :=
  (if p.employee_id = "" then p.employee_email else p.employee_id)
    ++ ":" ++ amountToString p.amount ++ ":" ++ p.pay_date

/-- One raw CSV record: column name to string value. -/
abbrev RawRow := List (String × String)

/-- `rawRow[csvColumn]`: first binding of the column, if any. -/
def rowLookup (r : RawRow) (k : String) : Option String :=
  (r.find? (fun kv => kv.1 = k)).map (fun kv => kv.2)

/-- The detected column mapping: each canonical field either mapped to an
input column name or unmapped (`null`). -/
structure ColumnMapping where
  employee_id : Option String
  employee_email : Option String
  amount : Option String
  currency : Option String
  pay_date : Option String
  description : Option String
  external_reference : Option String
deriving DecidableEq, Repr

/-- Model of `if (csvColumn && rawRow[csvColumn] !== undefined)
mappedRow[field] = rawRow[csvColumn]`: an unmapped field, a falsy (empty)
column name, or an absent column leaves the candidate field absent. -/
def mapField (r : RawRow) : Option String → Option String
  | none => none
  | some c => if c = "" then none else rowLookup r c

/-- Project one raw row through the column mapping into the candidate handed
to `RawPaymentRowSchema.safeParse`. -/
def projectRow (m : ColumnMapping) (r : RawRow) : RawCandidate :=
  ⟨mapField r m.employee_id, mapField r m.employee_email, mapField r m.amount,
   mapField r m.currency, mapField r m.pay_date, mapField r m.description,
   mapField r m.external_reference⟩

/-- An entry of the `invalidRows` partition. -/
structure InvalidRow where
  rowIndex : Nat
  data : RawRow
  errors : List VIssue
deriving DecidableEq, Repr

/-- An entry of the `duplicates` partition. -/
structure DuplicateRow where
  rowIndex : Nat
  data : RawRow
  duplicateOf : Nat
deriving DecidableEq, Repr

/-- The three partitions produced by `validatePayrollRows`. -/
structure ParsedPayroll where
  validRows : List PaymentRow
  invalidRows : List InvalidRow
  duplicates : List DuplicateRow
deriving DecidableEq, Repr

/-- Lookup in the `seenPayments` map (keys are inserted at most once, so an
association list with most-recent-first lookup is an exact model). -/
def lookupSeen (k : String) : List (String × Nat) → Option Nat
  | [] => none
  | kv :: rest => if kv.1 = k then some kv.2 else lookupSeen k rest

/-- The per-row loop of `validatePayrollRows`: validate, detect duplicates
against `seenPayments`, and dispatch each row index into exactly one of the
three partitions.  `i` is the index of the first row of `l` in the original
input. -/
def validateLoop (ctx : DateCtx) (m : ColumnMapping) :
    List RawRow → Nat → List (String × Nat) → ParsedPayroll
  | [], _, _ => ⟨[], [], []⟩
  | r :: rest, i, seen =>
    match rawPaymentRowParse ctx (projectRow m r) with
    | .error errs =>
      let out := validateLoop ctx m rest (i + 1) seen
      ⟨out.validRows, ⟨i, r, errs⟩ :: out.invalidRows, out.duplicates⟩
    | .ok p =>
      match lookupSeen (paymentKey p) seen with
      | some j =>
        let out := validateLoop ctx m rest (i + 1) seen
        ⟨out.validRows, out.invalidRows, ⟨i, r, j⟩ :: out.duplicates⟩
      | none =>
        let out := validateLoop ctx m rest (i + 1) ((paymentKey p, i) :: seen)
        ⟨p :: out.validRows, out.invalidRows, out.duplicates⟩

/-- Model of `validatePayrollRows(rows, columnMapping)`. -/
def validatePayrollRows (ctx : DateCtx) (m : ColumnMapping) (rows : List RawRow) :
    ParsedPayroll :=
  validateLoop ctx m rows 0 []

/-- The validation outcome of one raw row, as an `Option` (`some` = passes
validation). -/
def keyAt? (ctx : DateCtx) (m : ColumnMapping) (r : RawRow) : Option PaymentRow :=
  (rawPaymentRowParse ctx (projectRow m r)).toOption

/-- Index (counting from `i`) of the first row of `l` that passes validation
and whose duplicate key is `k`. -/
def firstKeyIdxFrom (ctx : DateCtx) (m : ColumnMapping) (k : String) :
    List RawRow → Nat → Option Nat
  | [], _ => none
  | r :: rest, i =>
    match keyAt? ctx m r with
    | some p =>
      if paymentKey p = k then some i else firstKeyIdxFrom ctx m k rest (i + 1)
    | none => firstKeyIdxFrom ctx m k rest (i + 1)

/-- Index of the first row of the batch that passes validation with duplicate
key `k` — the row recorded in `seenPayments` for `k`, hence the one placed in
`validRows`. -/
def firstKeyIdx (ctx : DateCtx) (m : ColumnMapping) (rows : List RawRow)
    (k : String) : Option Nat :=
  firstKeyIdxFrom ctx m k rows 0

/-- Key resolution as the loop sees it: keys recorded in `seen` take
precedence, otherwise the first matching row of the processed part `pre` of
the batch. -/
def resolveFrom (ctx : DateCtx) (m : ColumnMapping) (seen : List (String × Nat))
    (pre : List RawRow) (i : Nat) (k : String) : Option Nat :=
  match lookupSeen k seen with
  | some j => some j
  | none => firstKeyIdxFrom ctx m k pre i

/-- The `invalidRows` partition, described row by row: the rows that fail
validation, tagged with their input index. -/
def invalidFrom (ctx : DateCtx) (m : ColumnMapping) :
    List RawRow → Nat → List InvalidRow
  | [], _ => []
  | r :: rest, i =>
    match rawPaymentRowParse ctx (projectRow m r) with
    | .error errs => ⟨i, r, errs⟩ :: invalidFrom ctx m rest (i + 1)
    | .ok _ => invalidFrom ctx m rest (i + 1)

/-! ## The per-row retry procedure (`processPaymentRow` in `worker/index.ts`)

The adapter's behaviour at each attempt is abstracted as a function from the
attempt number (1-based) to an outcome: resolving with success, resolving
with failure (`success: false` plus an error string), or throwing.  The model
returns, besides the row result the source returns, an instrumentation trace:
the backoff delays slept between attempts (in milliseconds) and the number of
adapter calls made. -/

/-- What the adapter call does at one attempt. -/
inductive AttemptOutcome
  | success (resp : String)
  | failure (err : String)
  | thrown (err : String)
deriving DecidableEq, Repr

/-- The object `processPaymentRow` resolves with. -/
structure RowResult where
  success : Bool
  providerResponse : Option String
  errorMessage : Option String
  attempts : Nat
deriving DecidableEq, Repr

/-- Row result plus the execution trace of the retry loop. -/
structure RowTrace where
  result : RowResult
  delaysMs : List Nat
  adapterCalls : Nat
deriving DecidableEq, Repr

/-- JavaScript `opt?.x || d`: the fallback fires on absence and on the empty
(falsy) string. -/
def jsOrDefault (s : Option String) (d : String) : String :=
  match s with
  | some v => if v = "" then d else v
  | none => d

/-- The `while (attempts < maxRetries)` loop of `processPaymentRow`, entered
with the current `attempts` counter and the last stored error.  The loop
condition `attempts < maxRetries` is carried structurally as the number
`remaining = maxRetries - attempts` of iterations left (zero exactly when the
condition fails), so the recursion is structural and kernel-evaluable. -/
def processLoop (behavior : Nat → AttemptOutcome) (maxRetries : Nat) :
    Nat → Nat → Option String → RowTrace
  | 0, attempts, lastError =>
    ⟨⟨false, none, some (jsOrDefault lastError "Payment processing failed"), attempts⟩,
     [], 0⟩
  | remaining + 1, attempts, _lastError =>
    let a := attempts + 1
    match behavior a with
    | .success resp => ⟨⟨true, some resp, none, a⟩, [], 1⟩
    | .failure e =>
      let rest := processLoop behavior maxRetries remaining a (some e)
      if a < maxRetries then
        ⟨rest.result, 2 ^ (a - 1) * 1000 :: rest.delaysMs, 1 + rest.adapterCalls⟩
      else
        ⟨rest.result, rest.delaysMs, 1 + rest.adapterCalls⟩
    | .thrown e =>
      let rest := processLoop behavior maxRetries remaining a (some e)
      if a < maxRetries then
        ⟨rest.result, 2 ^ (a - 1) * 1000 :: rest.delaysMs, 1 + rest.adapterCalls⟩
      else
        ⟨rest.result, rest.delaysMs, 1 + rest.adapterCalls⟩

/-- Model of `processPaymentRow(row, logger, maxRetries)`. -/
def processPaymentRow (behavior : Nat → AttemptOutcome) (maxRetries : Nat) : RowTrace :=
  processLoop behavior maxRetries maxRetries 0 none

/-! ## The worker's batch loop (`startWorker` in `worker/index.ts`) -/

/-- Persisted row status. -/
inductive RowStatus
  | pending
  | success
  | failed
deriving DecidableEq, Repr

/-- Job status values of the Prisma schema. -/
inductive JobStatus
  | queued
  | processing
  | completed
  | failed
  | cancelled
deriving DecidableEq, Repr

/-- One element of the `Promise.allSettled` results array: `processPaymentRow`
resolved with a row result, or the promise was rejected (modelled by the
rejection's error message). -/
inductive RowSettled
  | fulfilled (r : RowResult)
  | rejected (reason : String)
deriving DecidableEq, Repr

/-- Fields the worker writes back to a `bulkPayrollRow`. -/
structure RowRecord where
  status : RowStatus
  attempts : Nat
  errorMessage : Option String
  providerResponse : Option String
deriving DecidableEq, Repr

/-- The per-row database update: a fulfilled result maps `success` to
SUCCESS/FAILED and stores response, error and attempt count; a rejected
promise marks the row FAILED with `attempts = MAX_RETRIES` and the rejection
message. -/
def applyRowResult (maxRetries : Nat) : RowSettled → RowRecord
  | .fulfilled r =>
    ⟨if r.success then .success else .failed, r.attempts, r.errorMessage,
     r.providerResponse⟩
  | .rejected reason => ⟨.failed, maxRetries, some reason, none⟩

/-- Whether a settled row increments `failedCount`. -/
def settledFailed : RowSettled → Bool
  | .fulfilled r => !r.success
  | .rejected _ => true

/-- Outcome of one worker execution on a job whose rows settled as given. -/
structure JobRun where
  snapshots : List (Nat × Nat)
  rowRecords : List RowRecord
  finalStatus : JobStatus
  completedAtSet : Bool
  processedRows : Nat
  failedRows : Nat
deriving DecidableEq, Repr

/-- The `for (let i = 0; i < rows.length; i += BATCH_SIZE)` loop: slice a
batch, apply every row update, bump `processedCount`/`failedCount`, persist a
`(processedRows, failedRows)` snapshot, recurse on the remainder.  The loop is
driven by fuel; with positive batch size, fuel equal to the number of rows
always suffices (a zero batch size would also make the source loop forever,
since `i += 0` never advances). -/
def runBatchesAux (B maxRetries : Nat) :
    Nat → List RowSettled → Nat → Nat →
      List (Nat × Nat) × List RowRecord × Nat × Nat
  | _, [], p, f => ([], [], p, f)
  | 0, _ :: _, p, f => ([], [], p, f)
  | fuel + 1, r :: rest, p, f =>
    let l := r :: rest
    let batch := l.take B
    let p' := p + batch.length
    let f' := f + batch.countP settledFailed
    let out := runBatchesAux B maxRetries fuel (l.drop B) p' f'
    ((p', f') :: out.1, batch.map (applyRowResult maxRetries) ++ out.2.1,
     out.2.2)

/-- Model of the worker's processing of one dispatched job along its
non-throwing path: process all batches, then mark the job COMPLETED, stamp
`completedAt` and persist the final counters.  (The enclosing `catch`, which
marks the job FAILED when the repository itself throws, is modelled in the
job state machine below, not here.) -/
def runJob (B maxRetries : Nat) (results : List RowSettled) : JobRun :=
  let out := runBatchesAux B maxRetries results.length results 0 0
  ⟨out.1, out.2.1, .completed, true, out.2.2.1, out.2.2.2⟩

/-! ## The fake payments adapter (`payments-adapter.ts`) -/

/-- Wrap an integer into signed 32-bit range (JavaScript `ToInt32`);
`2147483648 = 2^31` and `4294967296 = 2^32`. -/
def toInt32 (n : Int) : Int := (n + 2147483648) % 4294967296 - 2147483648

/-- JavaScript `hash << 5`: coerce to int32, shift, wrap. -/
def jsShl5 (h : Int) : Int := toInt32 (toInt32 h * 32)

/-- One step of the seeded hash:
`hash = (hash << 5) - hash + input.charCodeAt(i); hash = hash & hash`. -/
def hashStep (h : Int) (c : Char) : Int :=
  toInt32 (jsShl5 h - h + c.toNat)

/-- `seededRandom(input)`: fold the hash over the input string starting from
the seed, then `Math.abs(hash) % 1000 / 1000`. -/
def seededRandom (seed : Int) (input : String) : ℚ :=
  (((input.data.foldl hashStep seed).natAbs % 1000 : ℚ)) / 1000

/-- The fixed failure messages of the fake adapter. -/
def fakeErrors : List String :=
  ["Insufficient funds", "Invalid account", "Daily limit exceeded",
   "Temporary service unavailable", "Invalid currency for recipient"]

/-- The adapter's reproducibility key
`` `${input.employee_id || input.employee_email}:${input.amount}:${input.pay_date}` ``
(computed in `payments-adapter.ts`, independently of the CSV parser's
duplicate key). -/
def fakeAdapterKey (p : PaymentRow) : String :=
  (if p.employee_id = "" then p.employee_email else p.employee_id)
    ++ ":" ++ amountToString p.amount ++ ":" ++ p.pay_date

/-- Ambient nondeterminism consumed by `createPayment` outside the seeded
generator: `Date.now()` and `Math.random()` (used only to synthesise the
provider id and response timestamp). -/
structure FakeEnv where
  nowMs : Int
  randTag : String
deriving DecidableEq, Repr

/-- The `PaymentResult` shape resolved by the adapter. -/
structure PaymentResult where
  success : Bool
  id : Option String
  error : Option String
  rawStatus : String
  rawReason : Option String
deriving DecidableEq, Repr

/-- Model of `FakePaymentsAdapter.createPayment` for an adapter constructed
with `{seed, successRate, latencyMs}`: returns the resolved result together
with the latency slept before resolving. -/
def fakeCreatePayment (seed : Int) (successRate : ℚ) (latencyMs : Nat)
    (env : FakeEnv) (input : PaymentRow) : PaymentResult × Nat :=
  let key := fakeAdapterKey input
  let rand := seededRandom seed key
  if rand < successRate then
    (⟨true, some ("fake_" ++ toString env.nowMs ++ "_" ++ env.randTag), none,
      "completed", none⟩, latencyMs)
  else
    let idx := (⌊seededRandom seed (key ++ "_error") * 5⌋).toNat
    let err := fakeErrors.getD idx ""
    (⟨false, none, some err, "failed", some err⟩, latencyMs)

/-! ## The cancel endpoint and the job lifecycle -/

/-- Result of `POST /api/bulk-payroll/jobs/:id/cancel` as seen by the caller. -/
inductive CancelOutcome
  | ok
  | conflict (currentStatus : JobStatus)
deriving DecidableEq, Repr

/-- Model of the cancel handler's state logic: jobs whose status is QUEUED or
PROCESSING are updated to CANCELLED; any other status yields a 409
INVALID_STATE response and no update. -/
def cancelJob (status : JobStatus) : CancelOutcome × JobStatus :=
  if status = .queued || status = .processing then (.ok, .cancelled)
  else (.conflict status, status)

/-- Lifecycle phase of the dispatched unit of work for a job. -/
inductive WPhase
  | dispatched
  | running
  | done
  | withdrawn
deriving DecidableEq, Repr

/-- Observable state of one job: its persisted status and the phase of its
worker execution. -/
structure SysState where
  status : JobStatus
  worker : WPhase
deriving DecidableEq, Repr

/-- The external operations that touch a job after upload. -/
inductive MEvent
  | cancelKeep
  | cancelWithdraw
  | workerStart
  | workerFinishOk
  | workerFinishErr
deriving DecidableEq, Repr

/-- Transition relation over a job's lifecycle, translated from the cancel
handler and the worker: a cancel request is accepted only on QUEUED or
PROCESSING and writes CANCELLED (withdrawing the queued unit of work only
when the job was QUEUED and a Redis connection is configured — `cancelKeep`
is the same request without the withdrawal); the worker, once its unit of
work starts, writes PROCESSING with *no* status guard, and on finishing
writes COMPLETED (or FAILED if interrupted by an internal error), again with
no status guard. -/
inductive MStep : MEvent → SysState → SysState → Prop
  | cancelKeep (s : SysState)
      (h : s.status = .queued ∨ s.status = .processing) :
      MStep .cancelKeep s ⟨.cancelled, s.worker⟩
  | cancelWithdraw (s : SysState)
      (h1 : s.status = .queued) (h2 : s.worker = .dispatched) :
      MStep .cancelWithdraw s ⟨.cancelled, .withdrawn⟩
  | workerStart (s : SysState) (h : s.worker = .dispatched) :
      MStep .workerStart s ⟨.processing, .running⟩
  | workerFinishOk (s : SysState) (h : s.worker = .running) :
      MStep .workerFinishOk s ⟨.completed, .done⟩
  | workerFinishErr (s : SysState) (h : s.worker = .running) :
      MStep .workerFinishErr s ⟨.failed, .done⟩

/-- A job starts QUEUED with its unit of work dispatched. -/
def initState : SysState := ⟨.queued, .dispatched⟩

/-- States reachable from the initial state by any event sequence. -/
def ReachableState (s : SysState) : Prop :=
  Relation.ReflTransGen (fun a b => ∃ e, MStep e a b) initState s

/-- Terminal job statuses. -/
def isTerminal : JobStatus → Bool
  | .completed => true
  | .failed => true
  | .cancelled => true
  | _ => false

/-- The error string reported by the adapter at attempt number `m` (the last
attempt when `maxRetries = m`). -/
def lastAttemptErr (b : Nat → AttemptOutcome) (m : Nat) : String :=
  match b m with
  | .failure e => e
  | .thrown e => e
  | .success _ => ""

/-- Twelve rows that all settle successfully (scenario B's shape with
`successRate = 1.0`). -/
def twelveRows : List RowSettled :=
  List.replicate 12 (.fulfilled ⟨true, some "ok", none, 1⟩)

/-- Acceptance of the `amount` field through the validator: the raw coercion
field check (`rawAmountField`, used by `rawStage`) followed by the
`PaymentRowSchema` amount checks (`amountIssuesOf`, used by
`paymentStageIssues`) raising no issue. -/
def amountAccepted (s : String) : Bool :=
  match rawAmountField (some s) with
  | .ok q => (amountIssuesOf q).isEmpty
  | .error _ => false

/-- A concrete evaluation context: validation run on 2026-01-31 with the
local reference time at UTC. -/
def sampleCtx : DateCtx := ⟨daysFromCivil 2026 1 31, 0⟩

/-- Candidate with both identifiers missing and a non-numeric amount. -/
def candNoIdsNaN : RawCandidate :=
  ⟨none, none, some "abc", some "USD", some "2026-02-01", none, none⟩

/-- Candidate with both identifiers missing and every other field valid. -/
def candNoIds : RawCandidate :=
  ⟨none, none, some "100", some "USD", some "2026-02-01", none, none⟩

/-- Equality of validation results is decidable (used to evaluate the model
at concrete candidates). -/
instance {ε α : Type} [DecidableEq ε] [DecidableEq α] : DecidableEq (Except ε α)
  | .error a, .error b =>
    if h : a = b then .isTrue (by rw [h])
    else .isFalse (by intro hh; injection hh; contradiction)
  | .error _, .ok _ => .isFalse (fun hh => Except.noConfusion hh)
  | .ok _, .error _ => .isFalse (fun hh => Except.noConfusion hh)
  | .ok a, .ok b =>
    if h : a = b then .isTrue (by rw [h])
    else .isFalse (by intro hh; injection hh; contradiction)

/-- The duplicate entry produced at position `t` of the remaining batch, as
resolved against `seen` and the rows before `t`. -/
def dupAtFun (ctx : DateCtx) (m : ColumnMapping) (seen : List (String × Nat))
    (l : List RawRow) (i : Nat) (t : Nat) : Option DuplicateRow :=
  match l.get? t with
  | some r =>
    match keyAt? ctx m r with
    | some p =>
      (resolveFrom ctx m seen (l.take t) i (paymentKey p)).map
        (fun j => ⟨i + t, r, j⟩)
    | none => none
  | none => none

/-- The valid entry produced at position `t` of the remaining batch. -/
def validAtFun (ctx : DateCtx) (m : ColumnMapping) (seen : List (String × Nat))
    (l : List RawRow) (i : Nat) (t : Nat) : Option PaymentRow :=
  match l.get? t with
  | some r =>
    match keyAt? ctx m r with
    | some p =>
      if resolveFrom ctx m seen (l.take t) i (paymentKey p) = none then some p
      else none
    | none => none
  | none => none

/-- The specification of `validRows`: in input order, the parsed rows whose
duplicate key first occurs (among validation-passing rows) at their own
index. -/
def validRowsSpec (ctx : DateCtx) (m : ColumnMapping) (rows : List RawRow) :
    List PaymentRow :=
  (List.range rows.length).filterMap (fun t =>
    match rows.get? t with
    | some r =>
      match keyAt? ctx m r with
      | some p =>
        if firstKeyIdx ctx m rows (paymentKey p) = some t then some p else none
      | none => none
    | none => none)

/-- Row index `i` landed in the `invalidRows` partition. -/
def inInvalidPartition (out : ParsedPayroll) (i : Nat) : Prop :=
  ∃ e ∈ out.invalidRows, e.rowIndex = i

/-- Row index `i` landed in the `duplicates` partition. -/
def inDuplicatePartition (out : ParsedPayroll) (i : Nat) : Prop :=
  ∃ d ∈ out.duplicates, d.rowIndex = i

/-- Row index `i` landed in `validRows`: it passes validation, its duplicate
key first occurs at `i`, and its parsed row is in the partition. -/
def inValidPartition (ctx : DateCtx) (m : ColumnMapping) (rows : List RawRow)
    (out : ParsedPayroll) (i : Nat) : Prop :=
  ∃ p, (rows.get? i).bind (keyAt? ctx m) = some p ∧
    firstKeyIdx ctx m rows (paymentKey p) = some i ∧ p ∈ out.validRows

/-- The column mapping of the unit tests: email/amount/currency/pay_date
mapped to identically named columns. -/
def sampleMapping : ColumnMapping :=
  ⟨none, some "employee_email", some "amount", some "currency",
   some "pay_date", none, none⟩

/-- Three rows: a valid one, an invalid one, and an exact duplicate of the
first. -/
def sampleRows : List RawRow :=
  [[("employee_email", "test@example.com"), ("amount", "1500.00"),
    ("currency", "USD"), ("pay_date", "2026-02-01")],
   [("employee_email", "invalid-email"), ("amount", "not-a-number"),
    ("currency", "INVALID"), ("pay_date", "2026-02-01")],
   [("employee_email", "test@example.com"), ("amount", "1500.00"),
    ("currency", "USD"), ("pay_date", "2026-02-01")]]

/-! ## Theorems -/

lemma processLoop_allFail (b : Nat → AttemptOutcome) (m : Nat)
    (hfail : ∀ k r, b k ≠ .success r) :
    ∀ rem att le, att + rem = m →
      processLoop b m rem att le =
        ⟨⟨false, none,
          some (jsOrDefault (if att < m then some (lastAttemptErr b m) else le)
            "Payment processing failed"), m⟩,
         (List.range' att (rem - 1)).map (fun i => 2 ^ i * 1000), rem⟩ := by
  intro rem
  induction rem with
  | zero =>
    intro att le hm
    simp only [Nat.add_zero] at hm
    subst hm
    simp [processLoop]
  | succ rem ih =>
    intro att le hm
    have hlt : att < m := by omega
    have key : ∀ e, b (att + 1) = .failure e ∨ b (att + 1) = .thrown e →
        (let rest := processLoop b m rem (att + 1) (some e)
         if att + 1 < m then
           (⟨rest.result, 2 ^ (att + 1 - 1) * 1000 :: rest.delaysMs,
             1 + rest.adapterCalls⟩ : RowTrace)
         else ⟨rest.result, rest.delaysMs, 1 + rest.adapterCalls⟩) =
        ⟨⟨false, none,
          some (jsOrDefault (some (lastAttemptErr b m)) "Payment processing failed"),
          m⟩,
         (List.range' att rem).map (fun i => 2 ^ i * 1000), rem + 1⟩ := by
      intro e hb
      have hrest := ih (att + 1) (some e) (by omega)
      by_cases ha : att + 1 < m
      · have hrem : rem - 1 + 1 = rem := by omega
        simp only [hrest, ha, if_pos, if_true]
        have hrange : List.range' att rem = att :: List.range' (att + 1) (rem - 1) := by
          rw [← hrem, List.range'_succ, hrem]
        simp [hrange, Nat.add_comm 1 rem]
      · have hm' : att + 1 = m := by omega
        have hrem0 : rem = 0 := by omega
        have hlast : lastAttemptErr b m = e := by
          rcases hb with hb | hb <;> simp [lastAttemptErr, ← hm', hb]
        subst hrem0
        simp only [hrest, ha, if_neg, if_false, hlast]
        simp [List.range', hm']
    cases hb : b (att + 1) with
    | success resp => exact absurd hb (hfail _ _)
    | failure e =>
      have := key e (Or.inl hb)
      simpa only [processLoop, hb, if_pos hlt] using this
    | thrown e =>
      have := key e (Or.inr hb)
      simpa only [processLoop, hb, if_pos hlt] using this

/-- C1: for every row behaviour and every `maxRetries ≥ 1`, if the adapter
fails (resolves unsuccessfully or throws) at every attempt, the per-row retry
procedure calls the adapter exactly `maxRetries` times, sleeps
`2^(attempt-1)` seconds between consecutive attempts (1s, 2s, 4s, …, i.e.
delays `2^0·1000, …, 2^(maxRetries-2)·1000` ms), and resolves with a failed
result whose `errorMessage` is the last attempt's error (JavaScript `||`
falls back to "Payment processing failed" only for an empty error string) and
whose `attempts` equals `maxRetries`; the worker then marks such a row
FAILED. -/
theorem processPaymentRow_allFail (b : Nat → AttemptOutcome) (m : Nat)
    (hm : 0 < m) (hfail : ∀ k r, b k ≠ .success r) :
    (processPaymentRow b m).result.success = false ∧
    (processPaymentRow b m).result.attempts = m ∧
    (processPaymentRow b m).result.errorMessage =
      some (jsOrDefault (some (lastAttemptErr b m)) "Payment processing failed") ∧
    (processPaymentRow b m).delaysMs =
      (List.range (m - 1)).map (fun i => 2 ^ i * 1000) ∧
    (processPaymentRow b m).adapterCalls = m ∧
    (applyRowResult m (.fulfilled (processPaymentRow b m).result)).status = .failed := by
  have h := processLoop_allFail b m hfail m 0 none (by omega)
  rw [processPaymentRow] at *
  rw [h]
  refine ⟨rfl, rfl, by simp [hm], ?_, rfl, by simp [applyRowResult]⟩
  rw [List.range_eq_range']

/-- Witness for C1 at `maxRetries = 3` and an adapter failing every attempt
with "Insufficient funds". -/
theorem processPaymentRow_allFail_witness :
    (0 < 3) ∧
    (processPaymentRow (fun _ => .failure "Insufficient funds") 3).result.success = false ∧
    (processPaymentRow (fun _ => .failure "Insufficient funds") 3).result.attempts = 3 ∧
    (processPaymentRow (fun _ => .failure "Insufficient funds") 3).result.errorMessage =
      some "Insufficient funds" ∧
    (processPaymentRow (fun _ => .failure "Insufficient funds") 3).delaysMs = [1000, 2000] ∧
    (processPaymentRow (fun _ => .failure "Insufficient funds") 3).adapterCalls = 3 ∧
    (applyRowResult 3
      (.fulfilled (processPaymentRow (fun _ => .failure "Insufficient funds") 3).result)).status
      = .failed := by
  obtain ⟨h1, h2, h3, h4, h5, h6⟩ :=
    processPaymentRow_allFail (fun _ => .failure "Insufficient funds") 3 (by decide)
      (fun k r h => by simp at h)
  refine ⟨by decide, h1, h2, ?_, ?_, h5, h6⟩
  · rw [h3]; rfl
  · rw [h4]; rfl

lemma processLoop_attempts (b : Nat → AttemptOutcome) (m : Nat) :
    ∀ rem att le, att + rem = m →
      att ≤ (processLoop b m rem att le).result.attempts ∧
      (processLoop b m rem att le).result.attempts ≤ m ∧
      (0 < rem → att + 1 ≤ (processLoop b m rem att le).result.attempts) := by
  intro rem
  induction rem with
  | zero =>
    intro att le hm
    simp [processLoop]
    omega
  | succ rem ih =>
    intro att le hm
    cases hb : b (att + 1) with
    | success resp =>
      simp only [processLoop, hb]
      refine ⟨by omega, by omega, fun _ => by omega⟩
    | failure e =>
      have h := ih (att + 1) (some e) (by omega)
      by_cases ha : att + 1 < m <;>
        simp only [processLoop, hb, ha, if_pos, if_neg, if_true, if_false] <;>
        exact ⟨by omega, h.2.1, fun _ => h.1⟩
    | thrown e =>
      have h := ih (att + 1) (some e) (by omega)
      by_cases ha : att + 1 < m <;>
        simp only [processLoop, hb, ha, if_pos, if_neg, if_true, if_false] <;>
        exact ⟨by omega, h.2.1, fun _ => h.1⟩

/-- C10: the per-row retry procedure is total at its interface — it is a
function that, for every adapter behaviour (including throwing behaviours)
and every `maxRetries`, yields a result; with `maxRetries ≥ 1` the reported
attempt count lies in `[1, maxRetries]`, and with `maxRetries = 0` the loop
body never runs: no adapter call is made and the procedure resolves with
`success = false`, `attempts = 0` and the fallback message "Payment
processing failed". -/
theorem processPaymentRow_total (b : Nat → AttemptOutcome) (m : Nat) :
    (0 < m → 1 ≤ (processPaymentRow b m).result.attempts ∧
      (processPaymentRow b m).result.attempts ≤ m) ∧
    (m = 0 → processPaymentRow b m =
      ⟨⟨false, none, some "Payment processing failed", 0⟩, [], 0⟩ ∧
      (processPaymentRow b m).adapterCalls = 0) := by
  constructor
  · intro hm
    have h := processLoop_attempts b m m 0 none (by omega)
    exact ⟨h.2.2 hm, h.2.1⟩
  · intro hm
    subst hm
    exact ⟨rfl, rfl⟩

/-- Witness for C10 at `maxRetries = 2` (a throwing adapter) and
`maxRetries = 0`. -/
theorem processPaymentRow_total_witness :
    (1 ≤ (processPaymentRow (fun _ => .thrown "boom") 2).result.attempts ∧
      (processPaymentRow (fun _ => .thrown "boom") 2).result.attempts ≤ 2) ∧
    (processPaymentRow (fun _ => .thrown "boom") 0 =
      ⟨⟨false, none, some "Payment processing failed", 0⟩, [], 0⟩ ∧
      (processPaymentRow (fun _ => .thrown "boom") 0).adapterCalls = 0) :=
  ⟨(processPaymentRow_total (fun _ => .thrown "boom") 2).1 (by decide),
   (processPaymentRow_total (fun _ => .thrown "boom") 0).2 rfl⟩

/-- C8: the cancel operation succeeds and writes CANCELLED exactly when the
job's current status is QUEUED or PROCESSING; in every other status —
including an already CANCELLED job — it signals a conflict and leaves the
status unchanged, so a second cancel of a cancelled job is rejected with a
conflict. -/
theorem cancelJob_gate (s : JobStatus) :
    ((cancelJob s).1 = .ok ↔ (s = .queued ∨ s = .processing)) ∧
    ((s = .queued ∨ s = .processing) → (cancelJob s).2 = .cancelled) ∧
    (¬(s = .queued ∨ s = .processing) →
      (cancelJob s).1 = .conflict s ∧ (cancelJob s).2 = s) ∧
    ((cancelJob s).1 = .ok →
      cancelJob (cancelJob s).2 = (.conflict .cancelled, .cancelled)) := by
  cases s <;> simp [cancelJob]

/-- Witness for C8: cancelling a QUEUED job succeeds and writes CANCELLED,
and the follow-up cancel of the now CANCELLED job is a conflict that leaves
the status CANCELLED. -/
theorem cancelJob_gate_witness :
    (cancelJob .queued).2 = .cancelled ∧
    cancelJob (cancelJob .queued).2 = (.conflict .cancelled, .cancelled) :=
  ⟨(cancelJob_gate .queued).2.1 (Or.inl rfl),
   (cancelJob_gate .queued).2.2.2 (by decide)⟩

/-- C9: the fake adapter's success flag and failure error string depend only
on the seed, the success rate and the row — not on the latency configuration
nor on the ambient nondeterminism (`Date.now()` / `Math.random()`, which only
shape the synthetic provider id), so any two invocations of adapters built
with the same seed and success rate agree on them for the same row; the
latency parameter is exactly the time slept and affects nothing else. -/
theorem fakeCreatePayment_deterministic (seed : Int) (successRate : ℚ)
    (l₁ l₂ : Nat) (e₁ e₂ : FakeEnv) (row : PaymentRow) :
    (fakeCreatePayment seed successRate l₁ e₁ row).1.success =
      (fakeCreatePayment seed successRate l₂ e₂ row).1.success ∧
    (fakeCreatePayment seed successRate l₁ e₁ row).1.error =
      (fakeCreatePayment seed successRate l₂ e₂ row).1.error ∧
    (fakeCreatePayment seed successRate l₁ e₁ row).2 = l₁ ∧
    (fakeCreatePayment seed successRate l₂ e₂ row).2 = l₂ := by
  by_cases h : seededRandom seed (fakeAdapterKey row) < successRate <;>
    simp [fakeCreatePayment, h]

/-- C3 counterexample: the worker writes job statuses with no status guard,
so a job cancelled while its worker execution is running (a reachable
situation: the worker starts, then a cancel request lands on the PROCESSING
job) is later overwritten from the terminal status CANCELLED to COMPLETED
when the worker finishes — a transition out of a terminal status. -/
theorem terminal_status_escapes :
    ReachableState ⟨.cancelled, .running⟩ ∧
    isTerminal (SysState.mk .cancelled .running).status = true ∧
    MStep .workerFinishOk ⟨.cancelled, .running⟩ ⟨.completed, .done⟩ ∧
    (SysState.mk .completed .done).status ≠ (SysState.mk .cancelled .running).status := by
  refine ⟨?_, rfl, MStep.workerFinishOk _ rfl, by decide⟩
  refine Relation.ReflTransGen.head ⟨.workerStart, MStep.workerStart _ rfl⟩ ?_
  exact Relation.ReflTransGen.single ⟨.cancelKeep, MStep.cancelKeep _ (Or.inr rfl)⟩

/-- C3 amended: a job in a terminal status (COMPLETED, FAILED, CANCELLED) can
change status only through a worker execution that is still pending or
running — the cancel operation never moves a job out of a terminal status,
and once no worker execution is pending or in flight a terminal job admits no
transition at all. -/
theorem terminal_status_amended (e : MEvent) (s s' : SysState)
    (hstep : MStep e s s') (hterm : isTerminal s.status = true) :
    (e = .workerStart ∨ e = .workerFinishOk ∨ e = .workerFinishErr) ∧
    (s.worker = .dispatched ∨ s.worker = .running) := by
  cases hstep with
  | cancelKeep s h =>
    rcases h with h | h <;> rw [h] at hterm <;> simp [isTerminal] at hterm
  | cancelWithdraw s h1 h2 => rw [h1] at hterm; simp [isTerminal] at hterm
  | workerStart s h => exact ⟨Or.inl rfl, Or.inl h⟩
  | workerFinishOk s h => exact ⟨Or.inr (Or.inl rfl), Or.inr h⟩
  | workerFinishErr s h => exact ⟨Or.inr (Or.inr rfl), Or.inr h⟩

/-- Witness for the amended C3 at the concrete step that overwrites a
CANCELLED job on worker completion. -/
theorem terminal_status_amended_witness :
    (MEvent.workerFinishOk = .workerStart ∨ MEvent.workerFinishOk = .workerFinishOk ∨
      MEvent.workerFinishOk = .workerFinishErr) ∧
    ((SysState.mk .cancelled .running).worker = .dispatched ∨
      (SysState.mk .cancelled .running).worker = .running) :=
  terminal_status_amended .workerFinishOk ⟨.cancelled, .running⟩ ⟨.completed, .done⟩
    (MStep.workerFinishOk _ rfl) rfl

lemma runBatchesAux_nil (B maxR fuel p f) :
    runBatchesAux B maxR fuel ([] : List RowSettled) p f = ([], [], p, f) := by
  cases fuel <;> rfl

lemma runBatchesAux_fuel (B maxR : Nat) (hB : 0 < B) :
    ∀ f₁ f₂ (l : List RowSettled) p f, l.length ≤ f₁ → l.length ≤ f₂ →
      runBatchesAux B maxR f₁ l p f = runBatchesAux B maxR f₂ l p f := by
  intro f₁
  induction f₁ with
  | zero =>
    intro f₂ l p f h1 _h2
    have : l = [] := List.eq_nil_of_length_eq_zero (Nat.le_zero.mp h1)
    subst this
    simp [runBatchesAux_nil]
  | succ k ih =>
    intro f₂ l p f h1 h2
    cases l with
    | nil => simp [runBatchesAux_nil]
    | cons r rest =>
      cases f₂ with
      | zero => simp at h2
      | succ k₂ =>
        simp only [runBatchesAux]
        rw [ih k₂ ((r :: rest).drop B) _ _
          (by simp [List.length_drop]; simp at h1; omega)
          (by simp [List.length_drop]; simp at h2; omega)]

lemma applyRowResult_terminal (maxR : Nat) (s : RowSettled) :
    ((applyRowResult maxR s).status == RowStatus.success ||
      (applyRowResult maxR s).status == RowStatus.failed) = true := by
  cases s with
  | fulfilled r => cases r.success <;> simp [applyRowResult]
  | rejected reason => simp [applyRowResult]

lemma applyRowResult_failed (maxR : Nat) (s : RowSettled) :
    ((applyRowResult maxR s).status == RowStatus.failed) = settledFailed s := by
  cases s with
  | fulfilled r => cases hr : r.success <;> simp [applyRowResult, settledFailed, hr]
  | rejected reason => simp [applyRowResult, settledFailed]

lemma runBatchesAux_char (B maxR : Nat) (hB : 0 < B) :
    ∀ n (l : List RowSettled), l.length = n → ∀ p f,
      (runBatchesAux B maxR l.length l p f).2.2.1 = p + l.length ∧
      (runBatchesAux B maxR l.length l p f).2.2.2 = f + l.countP settledFailed ∧
      (runBatchesAux B maxR l.length l p f).2.1 = l.map (applyRowResult maxR) ∧
      ∀ k : Nat, (runBatchesAux B maxR l.length l p f).1.get? k =
        if k * B < l.length then
          some (p + min ((k + 1) * B) l.length,
                f + (l.take ((k + 1) * B)).countP settledFailed)
        else none := by
  intro n
  induction n using Nat.strong_induction_on with
  | _ n ih =>
    intro l hlen p f
    cases l with
    | nil => simp [runBatchesAux_nil]
    | cons r rest =>
      have hdroplen : ((r :: rest).drop B).length < n := by
        simp [List.length_drop] at *
        omega
      have hfuel : runBatchesAux B maxR rest.length ((r :: rest).drop B)
            (p + ((r :: rest).take B).length)
            (f + ((r :: rest).take B).countP settledFailed) =
          runBatchesAux B maxR ((r :: rest).drop B).length ((r :: rest).drop B)
            (p + ((r :: rest).take B).length)
            (f + ((r :: rest).take B).countP settledFailed) := by
        apply runBatchesAux_fuel B maxR hB
        · simp [List.length_drop]
          omega
        · exact le_rfl
      have hIH := ih ((r :: rest).drop B).length (by omega) ((r :: rest).drop B) rfl
        (p + ((r :: rest).take B).length)
        (f + ((r :: rest).take B).countP settledFailed)
      obtain ⟨ihp, ihf, ihrec, ihsnap⟩ := hIH
      have hsplit : (r :: rest).take B ++ (r :: rest).drop B = r :: rest :=
        List.take_append_drop B (r :: rest)
      simp only [List.length_cons, runBatchesAux, hfuel]
      refine ⟨?_, ?_, ?_, ?_⟩
      · rw [ihp]
        have h1 : ((r :: rest).take B).length = min B (rest.length + 1) := by
          simp [List.length_take]
        have h2 : ((r :: rest).drop B).length = rest.length + 1 - B := by
          simp [List.length_drop]
        rw [h1, h2]
        omega
      · rw [ihf]
        conv_rhs => rw [← hsplit]
        rw [List.countP_append]
        omega
      · rw [ihrec]
        conv_rhs => rw [← hsplit]
        rw [List.map_append]
      · intro k
        cases k with
        | zero =>
          rw [List.get?_cons_zero, if_pos (by omega : 0 * B < rest.length + 1)]
          simp [List.length_take]
        | succ k =>
          rw [List.get?_cons_succ, ihsnap k]
          have hdl : ((r :: rest).drop B).length = rest.length + 1 - B := by
            simp [List.length_drop]
          rw [hdl]
          have h1 : (k + 1) * B = k * B + B := by ring
          have h2 : (k + 1 + 1) * B = k * B + B + B := by ring
          by_cases hc : (k + 1) * B < rest.length + 1
          · rw [if_pos (by omega), if_pos hc]
            simp only [Option.some.injEq, Prod.mk.injEq, List.length_take,
              List.length_cons]
            constructor
            · omega
            · have h3 : (k + 1 + 1) * B = B + (k + 1) * B := by ring
              rw [h3, List.take_add, List.countP_append]
              omega
          · rw [if_neg (by omega), if_neg hc]

/-- C2: when the worker's batch loop runs a job to the end (any mix of row
successes, failures and rejections), the job is marked COMPLETED with
`completedAt` stamped regardless of row failures; every row ends SUCCESS or
FAILED, and after each batch the persisted snapshot equals (number of rows
having reached SUCCESS or FAILED so far, number FAILED so far) — there is a
snapshot for batch `k` exactly while rows remain, i.e. while
`k * batchSize < totalRows`; the final counters aggregate all rows.  Requires
a positive batch size (the source loop `i += BATCH_SIZE` diverges at zero). -/
theorem runJob_completes (B maxR : Nat) (results : List RowSettled) (hB : 0 < B) :
    (runJob B maxR results).finalStatus = .completed ∧
    (runJob B maxR results).completedAtSet = true ∧
    (runJob B maxR results).rowRecords = results.map (applyRowResult maxR) ∧
    (∀ rec ∈ (runJob B maxR results).rowRecords,
      rec.status = .success ∨ rec.status = .failed) ∧
    (runJob B maxR results).processedRows =
      (runJob B maxR results).rowRecords.countP
        (fun rec => rec.status == .success || rec.status == .failed) ∧
    (runJob B maxR results).failedRows =
      (runJob B maxR results).rowRecords.countP (fun rec => rec.status == .failed) ∧
    (∀ k : Nat, (runJob B maxR results).snapshots.get? k =
      if k * B < results.length then
        some
          (((results.take ((k + 1) * B)).map (applyRowResult maxR)).countP
             (fun rec => rec.status == .success || rec.status == .failed),
           ((results.take ((k + 1) * B)).map (applyRowResult maxR)).countP
             (fun rec => rec.status == .failed))
      else none) := by
  obtain ⟨hp, hf, hrec, hsnap⟩ :=
    runBatchesAux_char B maxR hB results.length results rfl 0 0
  have hcount : ∀ l : List RowSettled,
      (l.map (applyRowResult maxR)).countP
        (fun rec => rec.status == .success || rec.status == .failed) = l.length := by
    intro l
    rw [List.countP_map]
    simp only [Function.comp_def]
    exact List.countP_eq_length.mpr (fun a _ => applyRowResult_terminal maxR a)
  have hcountf : ∀ l : List RowSettled,
      (l.map (applyRowResult maxR)).countP (fun rec => rec.status == .failed) =
        l.countP settledFailed := by
    intro l
    rw [List.countP_map]
    simp only [Function.comp_def]
    exact List.countP_congr (fun a _ => by simp [applyRowResult_failed maxR a])
  refine ⟨rfl, rfl, hrec, ?_, ?_, ?_, ?_⟩
  · intro rec hmem
    rw [show (runJob B maxR results).rowRecords =
        (runBatchesAux B maxR results.length results 0 0).2.1 from rfl, hrec] at hmem
    obtain ⟨a, _, ha⟩ := List.mem_map.mp hmem
    subst ha
    cases a with
    | fulfilled r => cases hr : r.success <;> simp [applyRowResult, hr]
    | rejected reason => simp [applyRowResult]
  · show (runBatchesAux B maxR results.length results 0 0).2.2.1 = _
    rw [hp, show (runJob B maxR results).rowRecords =
        (runBatchesAux B maxR results.length results 0 0).2.1 from rfl, hrec,
      hcount]
    omega
  · show (runBatchesAux B maxR results.length results 0 0).2.2.2 = _
    rw [hf, show (runJob B maxR results).rowRecords =
        (runBatchesAux B maxR results.length results 0 0).2.1 from rfl, hrec,
      hcountf]
    omega
  · intro k
    show (runBatchesAux B maxR results.length results 0 0).1.get? k = _
    rw [hsnap k]
    by_cases hc : k * B < results.length
    · rw [if_pos hc, if_pos hc]
      rw [hcount, hcountf, List.length_take]
      simp
    · rw [if_neg hc, if_neg hc]

/-- Witness for C2: 12 valid rows, batch size 10, all successful — snapshots
(10,0) then (12,0), final counters `processedRows = 12`, `failedRows = 0`,
status COMPLETED. -/
theorem runJob_completes_witness :
    (0 < 10) ∧
    (runJob 10 3 twelveRows).finalStatus = .completed ∧
    (runJob 10 3 twelveRows).completedAtSet = true ∧
    (runJob 10 3 twelveRows).processedRows = 12 ∧
    (runJob 10 3 twelveRows).failedRows = 0 ∧
    (runJob 10 3 twelveRows).snapshots = [(10, 0), (12, 0)] := by
  obtain ⟨h1, h2, _, _, _, _, _⟩ := runJob_completes 10 3 twelveRows (by decide)
  exact ⟨by decide, h1, h2, by decide, by decide, by decide⟩

/-- "The reduced denominator of `q` divides 100" says exactly that `100·q` is
an integer, i.e. `q` has at most two digits after the decimal point. -/
lemma den_dvd_100_iff (q : ℚ) : (100 % q.den = 0) ↔ (q * 100).den = 1 := by
  constructor
  · intro h
    obtain ⟨c, hc⟩ := Nat.dvd_of_mod_eq_zero h
    have hden : (q.den : ℚ) ≠ 0 := Nat.cast_ne_zero.mpr q.den_nz
    have hq : q * 100 = ((q.num * c : ℤ) : ℚ) := by
      conv_lhs => rw [← Rat.num_div_den q]
      push_cast
      field_simp
      have h100 : (100 : ℚ) = (q.den : ℚ) * (c : ℚ) := by exact_mod_cast hc
      rw [h100]
      ring
    rw [hq, Rat.den_intCast]
  · intro h
    have hint : ((q * 100).num : ℚ) = q * 100 := (Rat.den_eq_one_iff _).mp h
    have hq : q = Rat.divInt (q * 100).num 100 := by
      rw [Rat.divInt_eq_div, hint,
        eq_div_iff (by norm_num : ((100 : ℤ) : ℚ) ≠ 0)]
      push_cast
      ring
    have hdvd := Rat.den_dvd ((q * 100).num) 100
    rw [← hq] at hdvd
    have hdvd' : q.den ∣ 100 := by exact_mod_cast hdvd
    exact Nat.mod_eq_zero_of_dvd hdvd'

/-- C5: the validator accepts an amount string iff it coerces to a number `q`
with `0 < q ≤ 1,000,000` and at most two digits after the decimal point
(`100·q` integral — the regex `/^\d+(\.\d{1,2})?$/` applied to the coerced
value's decimal string, not a floating-remainder test); consequently
`1000000.00` is accepted while `1000000.01`, `0`, `-5` and `100.999` are
rejected. -/
theorem amount_validation :
    (∀ s : String, amountAccepted s = true ↔
      ∃ q : ℚ, jsNumber s = some q ∧ 0 < q ∧ q ≤ 1000000 ∧ (q * 100).den = 1) ∧
    amountAccepted "1000000.00" = true ∧
    amountAccepted "1000000.01" = false ∧
    amountAccepted "0" = false ∧
    amountAccepted "-5" = false ∧
    amountAccepted "100.999" = false := by
  refine ⟨?_, by decide, by decide, by decide, by decide, by decide⟩
  intro s
  cases hj : jsNumber s with
  | none => simp [amountAccepted, rawAmountField, hj]
  | some q =>
    simp only [amountAccepted, rawAmountField, hj, Option.some.injEq]
    constructor
    · intro h
      by_cases h1 : 0 < q
      · by_cases h2 : q ≤ 1000000
        · by_cases h3 : jsDecimal2Check q
          · simp only [jsDecimal2Check, Bool.and_eq_true, decide_eq_true_eq] at h3
            exact ⟨q, rfl, h1, h2, (den_dvd_100_iff q).mp h3.1.2⟩
          · simp [amountIssuesOf, h1, h2, h3] at h
        · simp [amountIssuesOf, h1, h2] at h
      · simp [amountIssuesOf, h1] at h
    · rintro ⟨q', hq', hpos, hle, hden⟩
      obtain rfl : q = q' := hq'
      have hdec : jsDecimal2Check q = true := by
        simp only [jsDecimal2Check, Bool.and_eq_true, decide_eq_true_eq]
        exact ⟨⟨le_of_lt hpos, (den_dvd_100_iff q).mpr hden⟩,
          lt_of_le_of_lt hle (by norm_num)⟩
      simp [amountIssuesOf, hpos, hle, hdec]

/-- Witness for C5 at the boundary amount `1000000.00`. -/
theorem amount_validation_witness :
    ∃ q : ℚ, jsNumber "1000000.00" = some q ∧ 0 < q ∧ q ≤ 1000000 ∧
      (q * 100).den = 1 :=
  (amount_validation.1 "1000000.00").mp amount_validation.2.1

/-- C6 counterexample: the claim's boundary fails outside UTC.  The code
compares `new Date(val)` — the *UTC* midnight of the pay date — against
`minDate`/`maxDate` built from *local* midnights, so with a local reference
time west of UTC (here UTC−5, offset −300 minutes) the date exactly 30 days
before today is rejected, although the claim says it succeeds: with today =
2026-01-31, the well-formed calendar date 2026-01-01 is exactly 30 days
earlier yet `payDateCheck` returns `false`. -/
theorem payDate_window_tz_counterexample :
    parseIsoShape "2026-01-01" = some (2026, 1, 1) ∧
    validCalendarDate 2026 1 1 = true ∧
    daysFromCivil 2026 1 1 = daysFromCivil 2026 1 31 - 30 ∧
    payDateCheck ⟨daysFromCivil 2026 1 31, -300⟩ "2026-01-01" = false :=
  ⟨by decide, by decide, by decide, by decide⟩

/-- C6 amended: when the local reference time is UTC (offset 0), `pay_date`
is accepted iff it matches `YYYY-MM-DD`, is a real calendar date, and lies in
the inclusive window `[today − 30, today + 365]`; the four boundary instances
hold at an explicit `today` (2026-01-31): 2026-01-01 (exactly −30) succeeds,
2025-12-31 (−31) fails, 2027-01-31 (exactly +365) succeeds, 2027-02-01
(+366) fails.  For a non-zero local offset the code compares the date's UTC
midnight with local midnights and an offset west of UTC excludes `today−30`
(see the counterexample), east of UTC excludes `today+365`. -/
theorem payDate_window_utc :
    (∀ (today : Int) (s : String),
      payDateCheck ⟨today, 0⟩ s = true ↔
        ∃ y m d, parseIsoShape s = some (y, m, d) ∧
          validCalendarDate y m d = true ∧
          today - 30 ≤ daysFromCivil y m d ∧ daysFromCivil y m d ≤ today + 365) ∧
    daysFromCivil 2026 1 1 = daysFromCivil 2026 1 31 - 30 ∧
    daysFromCivil 2025 12 31 = daysFromCivil 2026 1 31 - 31 ∧
    daysFromCivil 2027 1 31 = daysFromCivil 2026 1 31 + 365 ∧
    daysFromCivil 2027 2 1 = daysFromCivil 2026 1 31 + 366 ∧
    payDateCheck ⟨daysFromCivil 2026 1 31, 0⟩ "2026-01-01" = true ∧
    payDateCheck ⟨daysFromCivil 2026 1 31, 0⟩ "2025-12-31" = false ∧
    payDateCheck ⟨daysFromCivil 2026 1 31, 0⟩ "2027-01-31" = true ∧
    payDateCheck ⟨daysFromCivil 2026 1 31, 0⟩ "2027-02-01" = false := by
  refine ⟨?_, by decide, by decide, by decide, by decide, by decide, by decide,
    by decide, by decide⟩
  intro today s
  cases hp : parseIsoShape s with
  | none => simp [payDateCheck, payDateWindowOk, hp]
  | some ymd =>
    obtain ⟨y, m, d⟩ := ymd
    by_cases hv : validCalendarDate y m d
    · simp only [payDateCheck, payDateWindowOk, hp, Option.isSome_some,
        Bool.true_and, hv, if_true, Bool.and_eq_true, decide_eq_true_eq,
        Option.some.injEq, Prod.mk.injEq]
      constructor
      · rintro ⟨hA, hB⟩
        exact ⟨y, m, d, ⟨rfl, rfl, rfl⟩, hv, by omega, by omega⟩
      · rintro ⟨y', m', d', ⟨rfl, rfl, rfl⟩, _hv', h1, h2⟩
        exact ⟨by omega, by omega⟩
    · simp only [payDateCheck, payDateWindowOk, hp, Option.isSome_some,
        Bool.true_and, hv, if_false, Bool.false_eq_true, false_iff,
        Option.some.injEq, Prod.mk.injEq, not_exists]
      rintro y' m' d' ⟨⟨rfl, rfl, rfl⟩, hv', _, _⟩
      exact hv hv'

/-- Witness for the amended C6, applying it at the concrete `today`
2026-01-31 to a date inside the window. -/
theorem payDate_window_utc_witness :
    payDateCheck ⟨daysFromCivil 2026 1 31, 0⟩ "2026-03-01" = true :=
  (payDate_window_utc.1 (daysFromCivil 2026 1 31) "2026-03-01").mpr
    ⟨2026, 3, 1, by decide, by decide, by decide, by decide⟩

lemma rawStage_ok_fields (cand : RawCandidate) (r : RawParsed)
    (h : rawStage cand = .ok r) :
    r.employee_id = cand.employee_id.getD "" ∧
    r.employee_email = cand.employee_email.getD "" := by
  cases ha : rawAmountField cand.amount <;>
    cases hc : cand.currency <;>
    cases hd : cand.pay_date <;>
    simp [rawStage, ha, hc, hd] at h
  subst h
  exact ⟨rfl, rfl⟩

lemma rawStage_error_ne (cand : RawCandidate) (es : List VIssue)
    (h : rawStage cand = .error es) : es ≠ [] := by
  cases ha : rawAmountField cand.amount <;>
    cases hc : cand.currency <;>
    cases hd : cand.pay_date <;>
    simp [rawStage, ha, hc, hd, fieldIssues] at h <;>
    simp [← h]

/-- C7 counterexample: for a candidate missing both `employee_id` and
`employee_email` whose amount does not coerce to a number, validation fails —
but the error list consists of the single field-level coercion error; the
row-level cross-field error is absent, because the `.pipe` stops at the raw
coercion stage before `PaymentRowSchema`'s object refinement can run.  This
contradicts the claim's "regardless of whether the candidate's other fields
are valid or invalid". -/
theorem crossField_counterexample :
    candNoIdsNaN.employee_id.getD "" = "" ∧
    candNoIdsNaN.employee_email.getD "" = "" ∧
    rawPaymentRowParse sampleCtx candNoIdsNaN =
      .error [⟨some "amount", "amount must be a valid number"⟩] ∧
    (VIssue.mk none "At least one of employee_id or employee_email must be provided") ∉
      [VIssue.mk (some "amount") "amount must be a valid number"] :=
  ⟨by decide, by decide, by decide, by decide⟩

/-- C7 amended: a candidate missing both identifiers (or having them empty)
always fails validation; the row-level cross-field error appears in the
returned error list whenever the raw coercion stage succeeds (amount present
and numeric, currency and pay date present) — a coercion failure suppresses
the `PaymentRowSchema` stage, and with it the cross-field error, reporting
only the coercion issues. -/
theorem crossField_amended (ctx : DateCtx) (cand : RawCandidate)
    (hid : cand.employee_id.getD "" = "")
    (hemail : cand.employee_email.getD "" = "") :
    (∃ es, rawPaymentRowParse ctx cand = .error es ∧ es ≠ []) ∧
    (∀ r : RawParsed, rawStage cand = .ok r →
      ∃ es, rawPaymentRowParse ctx cand = .error es ∧
        VIssue.mk none "At least one of employee_id or employee_email must be provided"
          ∈ es) := by
  cases hraw : rawStage cand with
  | error es =>
    refine ⟨⟨es, by simp [rawPaymentRowParse, hraw], rawStage_error_ne cand es hraw⟩, ?_⟩
    intro r hr
    exact Except.noConfusion hr
  | ok r =>
    obtain ⟨hif, hef⟩ := rawStage_ok_fields cand r hraw
    have h1 : r.employee_id = "" := by rw [hif, hid]
    have h2 : r.employee_email = "" := by rw [hef, hemail]
    have hmem : VIssue.mk none
        "At least one of employee_id or employee_email must be provided"
        ∈ paymentStageIssues ctx r := by
      unfold paymentStageIssues
      apply List.mem_append.mpr
      right
      simp [h1, h2]
    have herr : ∃ es, paymentStage ctx r = .error es ∧
        VIssue.mk none
          "At least one of employee_id or employee_email must be provided" ∈ es := by
      unfold paymentStage
      cases hps : paymentStageIssues ctx r with
      | nil => rw [hps] at hmem; cases hmem
      | cons e es' => exact ⟨e :: es', rfl, hps ▸ hmem⟩
    obtain ⟨es, hes, hmem'⟩ := herr
    have hfull : rawPaymentRowParse ctx cand = .error es := by
      simp [rawPaymentRowParse, hraw, hes]
    refine ⟨⟨es, hfull, ?_⟩, ?_⟩
    · rintro rfl
      cases hmem'
    · intro r' hr'
      injection hr' with h
      subst h
      exact ⟨es, hfull, hmem'⟩

/-- Witness for the amended C7: both identifiers missing, all other fields
valid — validation fails and the row-level cross-field error is reported. -/
theorem crossField_amended_witness :
    ∃ es, rawPaymentRowParse sampleCtx candNoIds = .error es ∧
      VIssue.mk none "At least one of employee_id or employee_email must be provided"
        ∈ es :=
  (crossField_amended sampleCtx candNoIds rfl rfl).2
    ⟨"", "", 100, "USD", "2026-02-01", "", ""⟩ (by decide)

lemma resolveFrom_cons_err (ctx : DateCtx) (m : ColumnMapping)
    (seen : List (String × Nat)) (pre : List RawRow) (i : Nat) (k : String)
    (r : RawRow) (h : keyAt? ctx m r = none) :
    resolveFrom ctx m seen (r :: pre) i k = resolveFrom ctx m seen pre (i + 1) k := by
  unfold resolveFrom
  cases lookupSeen k seen with
  | some j => rfl
  | none => simp [firstKeyIdxFrom, h]

lemma resolveFrom_cons_dup (ctx : DateCtx) (m : ColumnMapping)
    (seen : List (String × Nat)) (pre : List RawRow) (i : Nat) (k : String)
    (r : RawRow) (p : PaymentRow) (j : Nat) (hp : keyAt? ctx m r = some p)
    (hj : lookupSeen (paymentKey p) seen = some j) :
    resolveFrom ctx m seen (r :: pre) i k = resolveFrom ctx m seen pre (i + 1) k := by
  unfold resolveFrom
  cases hk : lookupSeen k seen with
  | some j' => rfl
  | none =>
    have hne : paymentKey p ≠ k := by
      intro he
      rw [he, hk] at hj
      exact Option.noConfusion hj
    simp [firstKeyIdxFrom, hp, hne]

lemma resolveFrom_cons_new (ctx : DateCtx) (m : ColumnMapping)
    (seen : List (String × Nat)) (pre : List RawRow) (i : Nat) (k : String)
    (r : RawRow) (p : PaymentRow) (hp : keyAt? ctx m r = some p)
    (hnone : lookupSeen (paymentKey p) seen = none) :
    resolveFrom ctx m seen (r :: pre) i k =
      resolveFrom ctx m ((paymentKey p, i) :: seen) pre (i + 1) k := by
  unfold resolveFrom
  by_cases hkp : paymentKey p = k
  · subst hkp
    rw [hnone]
    simp [lookupSeen, firstKeyIdxFrom, hp]
  · have : lookupSeen k ((paymentKey p, i) :: seen) = lookupSeen k seen := by
      simp [lookupSeen, hkp]
    rw [this]
    cases lookupSeen k seen with
    | some j => rfl
    | none => simp [firstKeyIdxFrom, hp, hkp]

lemma validateLoop_length (ctx : DateCtx) (m : ColumnMapping) :
    ∀ (l : List RawRow) (i : Nat) (seen : List (String × Nat)),
      (validateLoop ctx m l i seen).validRows.length +
        (validateLoop ctx m l i seen).invalidRows.length +
        (validateLoop ctx m l i seen).duplicates.length = l.length := by
  intro l
  induction l with
  | nil => intro i seen; simp [validateLoop]
  | cons r rest ih =>
    intro i seen
    cases hparse : rawPaymentRowParse ctx (projectRow m r) with
    | error errs =>
      have := ih (i + 1) seen
      simp only [validateLoop, hparse, List.length_cons]
      omega
    | ok p =>
      cases hseen : lookupSeen (paymentKey p) seen with
      | some j =>
        have := ih (i + 1) seen
        simp only [validateLoop, hparse, hseen, List.length_cons]
        omega
      | none =>
        have := ih (i + 1) ((paymentKey p, i) :: seen)
        simp only [validateLoop, hparse, hseen, List.length_cons]
        omega

lemma validateLoop_invalid (ctx : DateCtx) (m : ColumnMapping) :
    ∀ (l : List RawRow) (i : Nat) (seen : List (String × Nat)),
      (validateLoop ctx m l i seen).invalidRows = invalidFrom ctx m l i := by
  intro l
  induction l with
  | nil => intro i seen; simp [validateLoop, invalidFrom]
  | cons r rest ih =>
    intro i seen
    cases hparse : rawPaymentRowParse ctx (projectRow m r) with
    | error errs =>
      simp only [validateLoop, invalidFrom, hparse, ih (i + 1) seen]
    | ok p =>
      cases hseen : lookupSeen (paymentKey p) seen with
      | some j => simp only [validateLoop, invalidFrom, hparse, hseen, ih (i + 1) seen]
      | none =>
        simp only [validateLoop, invalidFrom, hparse, hseen,
          ih (i + 1) ((paymentKey p, i) :: seen)]

lemma dupAtFun_succ (ctx : DateCtx) (m : ColumnMapping)
    (seen seen₂ : List (String × Nat)) (r : RawRow) (rest : List RawRow) (i : Nat)
    (hres : ∀ pre k, resolveFrom ctx m seen (r :: pre) i k =
      resolveFrom ctx m seen₂ pre (i + 1) k) (t : Nat) :
    dupAtFun ctx m seen (r :: rest) i (t + 1) = dupAtFun ctx m seen₂ rest (i + 1) t := by
  simp only [dupAtFun, List.get?_cons_succ, List.take_succ_cons]
  cases hg : rest.get? t with
  | none => rfl
  | some r' =>
    cases hk : keyAt? ctx m r' with
    | none => simp only [hk]
    | some p' =>
      have hidx : i + (t + 1) = i + 1 + t := by omega
      simp only [hk, hidx, hres (List.take t rest) (paymentKey p')]

lemma validAtFun_succ (ctx : DateCtx) (m : ColumnMapping)
    (seen seen₂ : List (String × Nat)) (r : RawRow) (rest : List RawRow) (i : Nat)
    (hres : ∀ pre k, resolveFrom ctx m seen (r :: pre) i k =
      resolveFrom ctx m seen₂ pre (i + 1) k) (t : Nat) :
    validAtFun ctx m seen (r :: rest) i (t + 1) =
      validAtFun ctx m seen₂ rest (i + 1) t := by
  simp only [validAtFun, List.get?_cons_succ, List.take_succ_cons]
  cases hg : rest.get? t with
  | none => rfl
  | some r' =>
    cases hk : keyAt? ctx m r' with
    | none => simp only [hk]
    | some p' => simp only [hk, hres (List.take t rest) (paymentKey p')]

lemma validateLoop_dup_valid (ctx : DateCtx) (m : ColumnMapping) :
    ∀ (l : List RawRow) (i : Nat) (seen : List (String × Nat)),
      (validateLoop ctx m l i seen).duplicates =
        (List.range l.length).filterMap (dupAtFun ctx m seen l i) ∧
      (validateLoop ctx m l i seen).validRows =
        (List.range l.length).filterMap (validAtFun ctx m seen l i) := by
  intro l
  induction l with
  | nil => intro i seen; simp [validateLoop]
  | cons r rest ih =>
    intro i seen
    rw [List.length_cons, List.range_succ_eq_map, List.filterMap_cons,
      List.filterMap_cons, List.filterMap_map, List.filterMap_map]
    cases hparse : rawPaymentRowParse ctx (projectRow m r) with
    | error errs =>
      have hkey : keyAt? ctx m r = none := by
        simp [keyAt?, hparse, Except.toOption]
      obtain ⟨ihd, ihv⟩ := ih (i + 1) seen
      rw [show dupAtFun ctx m seen (r :: rest) i 0 = none by simp [dupAtFun, hkey],
        show validAtFun ctx m seen (r :: rest) i 0 = none by simp [validAtFun, hkey]]
      simp only [validateLoop, hparse, ihd, ihv]
      refine ⟨List.filterMap_congr fun t _ => ?_, List.filterMap_congr fun t _ => ?_⟩
      · simpa [Function.comp] using (dupAtFun_succ ctx m seen seen r rest i
          (fun pre k => resolveFrom_cons_err ctx m seen pre i k r hkey) t).symm
      · simpa [Function.comp] using (validAtFun_succ ctx m seen seen r rest i
          (fun pre k => resolveFrom_cons_err ctx m seen pre i k r hkey) t).symm
    | ok p =>
      have hkey : keyAt? ctx m r = some p := by
        simp [keyAt?, hparse, Except.toOption]
      cases hseen : lookupSeen (paymentKey p) seen with
      | some j =>
        obtain ⟨ihd, ihv⟩ := ih (i + 1) seen
        rw [show dupAtFun ctx m seen (r :: rest) i 0 = some ⟨i, r, j⟩ by
            simp [dupAtFun, hkey, resolveFrom, hseen],
          show validAtFun ctx m seen (r :: rest) i 0 = none by
            simp [validAtFun, hkey, resolveFrom, hseen]]
        simp only [validateLoop, hparse, hseen, ihd, ihv]
        refine ⟨?_, List.filterMap_congr fun t _ => ?_⟩
        · congr 1
          refine List.filterMap_congr fun t _ => ?_
          simpa [Function.comp] using (dupAtFun_succ ctx m seen seen r rest i
            (fun pre k => resolveFrom_cons_dup ctx m seen pre i k r p j hkey hseen) t).symm
        · simpa [Function.comp] using (validAtFun_succ ctx m seen seen r rest i
            (fun pre k => resolveFrom_cons_dup ctx m seen pre i k r p j hkey hseen) t).symm
      | none =>
        obtain ⟨ihd, ihv⟩ := ih (i + 1) ((paymentKey p, i) :: seen)
        rw [show dupAtFun ctx m seen (r :: rest) i 0 = none by
            simp [dupAtFun, hkey, resolveFrom, hseen, firstKeyIdxFrom],
          show validAtFun ctx m seen (r :: rest) i 0 = some p by
            simp [validAtFun, hkey, resolveFrom, hseen, firstKeyIdxFrom]]
        simp only [validateLoop, hparse, hseen, ihd, ihv]
        refine ⟨List.filterMap_congr fun t _ => ?_, ?_⟩
        · simpa [Function.comp] using (dupAtFun_succ ctx m seen
            ((paymentKey p, i) :: seen) r rest i
            (fun pre k => resolveFrom_cons_new ctx m seen pre i k r p hkey hseen) t).symm
        · congr 1
          refine List.filterMap_congr fun t _ => ?_
          simpa [Function.comp] using (validAtFun_succ ctx m seen
            ((paymentKey p, i) :: seen) r rest i
            (fun pre k => resolveFrom_cons_new ctx m seen pre i k r p hkey hseen) t).symm

lemma firstKeyIdxFrom_ge (ctx : DateCtx) (m : ColumnMapping) (k : String) :
    ∀ (l : List RawRow) (i j : Nat),
      firstKeyIdxFrom ctx m k l i = some j → i ≤ j := by
  intro l
  induction l with
  | nil => intro i j h; simp [firstKeyIdxFrom] at h
  | cons r rest ih =>
    intro i j h
    rw [firstKeyIdxFrom] at h
    split at h
    · split at h
      · injection h with h
        omega
      · have := ih (i + 1) j h
        omega
    · have := ih (i + 1) j h
      omega

lemma firstKeyIdxFrom_take (ctx : DateCtx) (m : ColumnMapping) (k : String) :
    ∀ (l : List RawRow) (t i : Nat),
      firstKeyIdxFrom ctx m k (l.take t) i =
        (firstKeyIdxFrom ctx m k l i).bind
          (fun j => if j < i + t then some j else none) := by
  intro l
  induction l with
  | nil => intro t i; simp [firstKeyIdxFrom, List.take_nil]
  | cons r rest ih =>
    intro t i
    cases t with
    | zero =>
      rw [List.take_zero]
      cases hfk : firstKeyIdxFrom ctx m k (r :: rest) i with
      | none => simp [firstKeyIdxFrom]
      | some j =>
        have hge := firstKeyIdxFrom_ge ctx m k (r :: rest) i j hfk
        have hnlt : ¬ j < i := by omega
        simp [firstKeyIdxFrom, hnlt]
    | succ t =>
      rw [List.take_succ_cons]
      cases hk : keyAt? ctx m r with
      | some p =>
        by_cases hpk : paymentKey p = k
        · have hlt : i < i + (t + 1) := by omega
          simp [firstKeyIdxFrom, hk, hpk, hlt]
        · have harith : i + 1 + t = i + (t + 1) := by omega
          simp only [firstKeyIdxFrom, hk, if_neg hpk, ih t (i + 1), harith]
      | none =>
        have harith : i + 1 + t = i + (t + 1) := by omega
        simp only [firstKeyIdxFrom, hk, ih t (i + 1), harith]

lemma firstKeyIdxFrom_le (ctx : DateCtx) (m : ColumnMapping) :
    ∀ (l : List RawRow) (t i : Nat) (r : RawRow) (p : PaymentRow),
      l.get? t = some r → keyAt? ctx m r = some p →
      ∃ j, firstKeyIdxFrom ctx m (paymentKey p) l i = some j ∧ j ≤ i + t := by
  intro l
  induction l with
  | nil => intro t i r p hg _; simp at hg
  | cons r0 rest ih =>
    intro t i r p hg hk
    cases t with
    | zero =>
      rw [List.get?_cons_zero] at hg
      injection hg with hg
      subst hg
      refine ⟨i, ?_, by omega⟩
      simp [firstKeyIdxFrom, hk]
    | succ t =>
      rw [List.get?_cons_succ] at hg
      cases hk0 : keyAt? ctx m r0 with
      | some p0 =>
        by_cases hpk : paymentKey p0 = paymentKey p
        · refine ⟨i, ?_, by omega⟩
          simp [firstKeyIdxFrom, hk0, hpk]
        · obtain ⟨j, hj, hle⟩ := ih t (i + 1) r p hg hk
          refine ⟨j, ?_, by omega⟩
          simp [firstKeyIdxFrom, hk0, hpk, hj]
      | none =>
        obtain ⟨j, hj, hle⟩ := ih t (i + 1) r p hg hk
        refine ⟨j, ?_, by omega⟩
        simp [firstKeyIdxFrom, hk0, hj]

lemma invalidFrom_mem (ctx : DateCtx) (m : ColumnMapping) :
    ∀ (l : List RawRow) (i0 : Nat) (ei : Nat) (ed : RawRow) (ee : List VIssue),
      InvalidRow.mk ei ed ee ∈ invalidFrom ctx m l i0 ↔
        ∃ t, l.get? t = some ed ∧ ei = i0 + t ∧
          rawPaymentRowParse ctx (projectRow m ed) = .error ee := by
  intro l
  induction l with
  | nil => intro i0 ei ed ee; simp [invalidFrom]
  | cons r rest ih =>
    intro i0 ei ed ee
    cases hparse : rawPaymentRowParse ctx (projectRow m r) with
    | error errs =>
      simp only [invalidFrom, hparse, List.mem_cons, ih (i0 + 1), InvalidRow.mk.injEq]
      constructor
      · rintro (⟨rfl, rfl, rfl⟩ | ⟨t, hg, hi, hp⟩)
        · exact ⟨0, by simp, by simp, hparse⟩
        · exact ⟨t + 1, by simpa using hg, by omega, hp⟩
      · rintro ⟨t, hg, hi, hp⟩
        cases t with
        | zero =>
          rw [List.get?_cons_zero] at hg
          injection hg with hg
          subst hg
          rw [hparse] at hp
          injection hp with hp
          exact Or.inl ⟨by omega, rfl, hp.symm⟩
        | succ t =>
          exact Or.inr ⟨t, by simpa using hg, by omega, hp⟩
    | ok p =>
      simp only [invalidFrom, hparse, ih (i0 + 1)]
      constructor
      · rintro ⟨t, hg, hi, hp⟩
        exact ⟨t + 1, by simpa using hg, by omega, hp⟩
      · rintro ⟨t, hg, hi, hp⟩
        cases t with
        | zero =>
          rw [List.get?_cons_zero] at hg
          injection hg with hg
          subst hg
          rw [hparse] at hp
          exact Except.noConfusion hp
        | succ t =>
          exact ⟨t, by simpa using hg, by omega, hp⟩

lemma resolve_take_nil (ctx : DateCtx) (m : ColumnMapping) (rows : List RawRow)
    (t : Nat) (k : String) :
    resolveFrom ctx m [] (rows.take t) 0 k =
      (firstKeyIdx ctx m rows k).bind (fun j => if j < t then some j else none) := by
  show firstKeyIdxFrom ctx m k (rows.take t) 0 = _
  rw [firstKeyIdxFrom_take]
  simp only [Nat.zero_add]
  rfl

lemma dup_mem_char (ctx : DateCtx) (m : ColumnMapping) (rows : List RawRow)
    (i : Nat) (data : RawRow) (j : Nat) :
    DuplicateRow.mk i data j ∈ (validatePayrollRows ctx m rows).duplicates ↔
      (rows.get? i = some data ∧ ∃ p, keyAt? ctx m data = some p ∧ j < i ∧
        firstKeyIdx ctx m rows (paymentKey p) = some j) := by
  rw [validatePayrollRows, (validateLoop_dup_valid ctx m rows 0 []).1,
    List.mem_filterMap]
  constructor
  · rintro ⟨t, htmem, heq⟩
    rw [dupAtFun] at heq
    split at heq
    next r hg =>
      split at heq
      next p hk =>
        simp only [Option.map_eq_some'] at heq
        obtain ⟨j', hres, hmk⟩ := heq
        injection hmk with h1 h2 h3
        obtain rfl : t = i := by omega
        subst h2
        subst h3
        rw [resolve_take_nil] at hres
        cases hfk : firstKeyIdx ctx m rows (paymentKey p) with
        | none => rw [hfk] at hres; exact Option.noConfusion hres
        | some j0 =>
          rw [hfk] at hres
          simp only [Option.some_bind] at hres
          by_cases hlt : j0 < t
          · rw [if_pos hlt] at hres
            injection hres with hres
            subst hres
            exact ⟨hg, p, hk, hlt, hfk⟩
          · rw [if_neg hlt] at hres
            exact Option.noConfusion hres
      next hk => exact Option.noConfusion heq
    next hg => exact Option.noConfusion heq
  · rintro ⟨hg, p, hk, hlt, hfk⟩
    have hi : i < rows.length := by
      by_contra hge
      rw [List.get?_eq_none.mpr (by omega)] at hg
      exact Option.noConfusion hg
    refine ⟨i, List.mem_range.mpr hi, ?_⟩
    simp only [dupAtFun, hg, hk, resolve_take_nil, hfk, Option.some_bind,
      if_pos hlt, Option.map_some']
    simp

lemma valid_eq_spec (ctx : DateCtx) (m : ColumnMapping) (rows : List RawRow) :
    (validatePayrollRows ctx m rows).validRows = validRowsSpec ctx m rows := by
  rw [validatePayrollRows, (validateLoop_dup_valid ctx m rows 0 []).2, validRowsSpec]
  apply List.filterMap_congr
  intro t htmem
  cases hg : rows.get? t with
  | none => simp only [validAtFun, hg]
  | some r =>
    cases hk : keyAt? ctx m r with
    | none => simp only [validAtFun, hg, hk]
    | some p =>
      obtain ⟨j0, hj0, hle⟩ := firstKeyIdxFrom_le ctx m rows t 0 r p hg hk
      have hj0' : firstKeyIdx ctx m rows (paymentKey p) = some j0 := hj0
      simp only [validAtFun, hg, hk, resolve_take_nil, hj0', Option.some_bind]
      by_cases hj : j0 < t
      · have h1 : ¬ (some j0 = some t) := by
          intro hcon
          injection hcon with hcon
          omega
        simp [hj, h1]
      · have hjt : j0 = t := by omega
        subst hjt
        simp [hj]

/-- C4: `validatePayrollRows` partitions the input.  (a) The three partitions
together have exactly one entry per input row.  (b) An entry `(i, data, errs)`
is in `invalidRows` iff row `i` is `data` and it fails validation with those
errors.  (c) An entry `(i, data, j)` is in `duplicates` iff row `i` is
`data`, it passes validation, and the first validation-passing row with the
same duplicate key — `employeeId` if non-empty otherwise `employeeEmail`,
joined with `":" + amount + ":" + payDate` — is the earlier row `j < i`.
(d) `validRows` consists, in input order, of the parsed rows that are the
first occurrence of their key.  (e) Every input index lies in exactly one of
the three partitions. -/
theorem validatePayrollRows_partition (ctx : DateCtx) (m : ColumnMapping)
    (rows : List RawRow) :
    ((validatePayrollRows ctx m rows).validRows.length +
      (validatePayrollRows ctx m rows).invalidRows.length +
      (validatePayrollRows ctx m rows).duplicates.length = rows.length) ∧
    (∀ i data errs,
      InvalidRow.mk i data errs ∈ (validatePayrollRows ctx m rows).invalidRows ↔
        (rows.get? i = some data ∧
          rawPaymentRowParse ctx (projectRow m data) = .error errs)) ∧
    (∀ i data j,
      DuplicateRow.mk i data j ∈ (validatePayrollRows ctx m rows).duplicates ↔
        (rows.get? i = some data ∧ ∃ p, keyAt? ctx m data = some p ∧ j < i ∧
          firstKeyIdx ctx m rows (paymentKey p) = some j)) ∧
    ((validatePayrollRows ctx m rows).validRows = validRowsSpec ctx m rows) ∧
    (∀ i, i < rows.length →
      (inInvalidPartition (validatePayrollRows ctx m rows) i ∧
        ¬ inDuplicatePartition (validatePayrollRows ctx m rows) i ∧
        ¬ inValidPartition ctx m rows (validatePayrollRows ctx m rows) i) ∨
      (¬ inInvalidPartition (validatePayrollRows ctx m rows) i ∧
        inDuplicatePartition (validatePayrollRows ctx m rows) i ∧
        ¬ inValidPartition ctx m rows (validatePayrollRows ctx m rows) i) ∨
      (¬ inInvalidPartition (validatePayrollRows ctx m rows) i ∧
        ¬ inDuplicatePartition (validatePayrollRows ctx m rows) i ∧
        inValidPartition ctx m rows (validatePayrollRows ctx m rows) i)) := by
  have hb : ∀ i data errs,
      InvalidRow.mk i data errs ∈ (validatePayrollRows ctx m rows).invalidRows ↔
        (rows.get? i = some data ∧
          rawPaymentRowParse ctx (projectRow m data) = .error errs) := by
    intro i data errs
    rw [validatePayrollRows, validateLoop_invalid ctx m rows 0 [],
      invalidFrom_mem ctx m rows 0 i data errs]
    constructor
    · rintro ⟨t, hg, hi, hp⟩
      obtain rfl : i = t := by omega
      exact ⟨hg, hp⟩
    · rintro ⟨hg, hp⟩
      exact ⟨i, hg, by omega, hp⟩
  have hc := dup_mem_char ctx m rows
  have hd := valid_eq_spec ctx m rows
  refine ⟨validateLoop_length ctx m rows 0 [], hb, hc, hd, ?_⟩
  intro i hi
  obtain ⟨r, hg⟩ : ∃ r, rows.get? i = some r := by
    cases hgg : rows.get? i with
    | none =>
      rw [List.get?_eq_none] at hgg
      omega
    | some r => exact ⟨r, rfl⟩
  cases hparse : rawPaymentRowParse ctx (projectRow m r) with
  | error errs =>
    have hkeyn : keyAt? ctx m r = none := by
      simp [keyAt?, hparse, Except.toOption]
    refine Or.inl ⟨⟨⟨i, r, errs⟩, (hb i r errs).mpr ⟨hg, hparse⟩, rfl⟩, ?_, ?_⟩
    · rintro ⟨d, hd', hdi⟩
      obtain ⟨di, dd, dj⟩ := d
      simp only at hdi
      subst hdi
      obtain ⟨hg', p, hk', _, _⟩ := (hc di dd dj).mp hd'
      rw [hg] at hg'
      injection hg' with hg'
      rw [← hg', hkeyn] at hk'
      exact Option.noConfusion hk'
    · rintro ⟨p, hpb, _, _⟩
      rw [hg, Option.some_bind, hkeyn] at hpb
      exact Option.noConfusion hpb
  | ok p =>
    have hkey : keyAt? ctx m r = some p := by
      simp [keyAt?, hparse, Except.toOption]
    obtain ⟨j0, hj0, hle⟩ := firstKeyIdxFrom_le ctx m rows i 0 r p hg hkey
    have hj0' : firstKeyIdx ctx m rows (paymentKey p) = some j0 := hj0
    have hnotA : ¬ inInvalidPartition (validatePayrollRows ctx m rows) i := by
      rintro ⟨e, he, hei⟩
      obtain ⟨ei, ed, ee⟩ := e
      simp only at hei
      subst hei
      obtain ⟨hg', hp'⟩ := (hb ei ed ee).mp he
      rw [hg] at hg'
      injection hg' with hg'
      rw [← hg', hparse] at hp'
      exact Except.noConfusion hp'
    by_cases hj : j0 < i
    · refine Or.inr (Or.inl ⟨hnotA,
        ⟨⟨i, r, j0⟩, (hc i r j0).mpr ⟨hg, p, hkey, hj, hj0'⟩, rfl⟩, ?_⟩)
      rintro ⟨p', hpb, hfk', _⟩
      rw [hg, Option.some_bind, hkey] at hpb
      injection hpb with hpb
      rw [← hpb, hj0'] at hfk'
      injection hfk' with hfk'
      omega
    · have hj0i : firstKeyIdx ctx m rows (paymentKey p) = some i := by
        rw [hj0']
        congr 1
        omega
      have hpmem : p ∈ (validatePayrollRows ctx m rows).validRows := by
        rw [hd, validRowsSpec]
        refine List.mem_filterMap.mpr ⟨i, List.mem_range.mpr hi, ?_⟩
        have hg2 : rows[i]? = some r := by
          rw [← List.get?_eq_getElem?]
          exact hg
        simp [hg, hg2, hkey, hj0i]
      refine Or.inr (Or.inr ⟨hnotA, ?_,
        ⟨p, by rw [hg, Option.some_bind, hkey], hj0i, hpmem⟩⟩)
      rintro ⟨d, hd', hdi⟩
      obtain ⟨di, dd, dj⟩ := d
      simp only at hdi
      subst hdi
      obtain ⟨hg', p', hk', hlt', hfk'⟩ := (hc di dd dj).mp hd'
      rw [hg] at hg'
      injection hg' with hg'
      rw [← hg', hkey] at hk'
      injection hk' with hk'
      rw [← hk', hj0i] at hfk'
      injection hfk' with hfk'
      omega

/-- Witness for C4 at a concrete batch: index 2 (the duplicate of row 0)
lies in exactly one partition. -/
theorem validatePayrollRows_partition_witness :
    (2 < sampleRows.length) ∧
    ((inInvalidPartition (validatePayrollRows sampleCtx sampleMapping sampleRows) 2 ∧
        ¬ inDuplicatePartition (validatePayrollRows sampleCtx sampleMapping sampleRows) 2 ∧
        ¬ inValidPartition sampleCtx sampleMapping sampleRows
            (validatePayrollRows sampleCtx sampleMapping sampleRows) 2) ∨
      (¬ inInvalidPartition (validatePayrollRows sampleCtx sampleMapping sampleRows) 2 ∧
        inDuplicatePartition (validatePayrollRows sampleCtx sampleMapping sampleRows) 2 ∧
        ¬ inValidPartition sampleCtx sampleMapping sampleRows
            (validatePayrollRows sampleCtx sampleMapping sampleRows) 2) ∨
      (¬ inInvalidPartition (validatePayrollRows sampleCtx sampleMapping sampleRows) 2 ∧
        ¬ inDuplicatePartition (validatePayrollRows sampleCtx sampleMapping sampleRows) 2 ∧
        inValidPartition sampleCtx sampleMapping sampleRows
            (validatePayrollRows sampleCtx sampleMapping sampleRows) 2)) :=
  ⟨by decide,
   (validatePayrollRows_partition sampleCtx sampleMapping sampleRows).2.2.2.2 2
     (by decide)⟩

end Payroll
